import Mathlib

/-!
Verification of the `RUDPConnection` state machine of `txrudp/connection.py`.

The connection is embedded shallowly as a pure state-transition system:

* `RUDPPacket`, `ScheduledPacket`, `Conn` mirror the Python data model
  (`packet.RUDPPacket` as used by `connection.py`, `ScheduledPacket`, and the
  attributes set up in `RUDPConnection.__init__`).  Python's unbounded
  integers become `Nat`; Python strings become `List Char`.
* Effects on the outside world (datagrams handed to `proto.send_datagram`,
  calls to `handler.handle_shutdown` / `handler.receive_message`, and
  cancellation of reactor timers) are collected in a `List Output`.
* Twisted reactor objects are modelled by their observable state:
  a `LoopingCall` by its `running` flag, a `DelayedCall` by an active flag.
  `LoopingCall.start(interval)` is modelled faithfully to Twisted's default
  `now=True`: starting the looping sender immediately performs one dequeue
  tick; subsequent ticks are separate events.
* Serialization (`_finalize_packet`, a JSON dump) is injective on packets, so
  the stored "finalized" packet is modelled as the packet itself.
* Code that can raise (`KeyError` in `_do_send_packet` and in
  `_retire_packets_with_seqnum_up_to`, the `assert` in
  `_dequeue_outbound_message`) is modelled in `Option`, `none` being a crash.

The modules `constants`, `heap` and `packet` of the repository are not part
of the sources under verification; the constants are taken as parameters
(`Consts`) and the receive heap is modelled from the specification.  The two
helpers `_attempt_enabling_looping_receive` / `_attempt_disabling_looping_receive`
are called by `connection.py` but are not defined in it; they too are
modelled from the specification.
-/

/-- An `(ip, port)` address as used by `RUDPConnection` (`collections.namedtuple('Address', ...)`). -/
abbrev Address := String × Nat

/-- The semantic fields of `packet.RUDPPacket` as consumed by `connection.py`:
constructor argument order is `(sequence_number, dest, source, payload,
more_fragments, ack, syn, fin)`. -/
structure RUDPPacket where
  sequence_number : Nat
  dest_addr : Address
  source_addr : Address
  payload : List Char
  more_fragments : Nat
  ack : Nat
  syn : Bool
  fin : Bool
  deriving DecidableEq, Repr

/-- `RUDPConnection.ScheduledPacket`: an in-flight outbound packet.  The
`timeout_cb` reactor handle is modelled by its active flag. -/
structure ScheduledPacket where
  rudp_packet : RUDPPacket
  timeout : Nat
  timeout_cb : Bool
  retries : Nat
  deriving DecidableEq, Repr

/-- Observable effects of the connection on its collaborators: datagrams sent
through `proto.send_datagram`, handler notifications, and timer cancellations. -/
inductive Output where
  | datagram (p : RUDPPacket) (addr : Address)
  | handleShutdown
  | receiveMessage (payload : List Char)
  | cancelTimer (seqnum : Nat)
  deriving DecidableEq, Repr

/-- The wire-affecting constants of the `constants` module.
Modelled from the spec: the `constants` module is not among the sources, so
the constants are abstract parameters (spec section 6 names them without
fixing values). -/
structure Consts where
  UDP_SAFE_SEGMENT_SIZE : Nat
  WINDOW_SIZE : Nat
  PACKET_TIMEOUT : Nat
  BARE_ACK_TIMEOUT : Nat
  KEEP_ALIVE_TIMEOUT : Nat
  MAX_RETRANSMISSIONS : Nat
  deriving DecidableEq, Repr

/-- Mutable state of one `RUDPConnection`, as set up by `__init__`.
`sending_window` mirrors the `OrderedDict`: an association list in insertion
order.  `syn_handle` is the active flag of the one-shot SYN `DelayedCall`. -/
structure Conn where
  own_addr : Address
  dest_addr : Address
  relay_addr : Address
  connected : Bool
  next_sequence_number : Nat
  next_expected_seqnum : Nat
  segment_queue : List (Nat × List Char)
  sending_window : List (Nat × ScheduledPacket)
  receive_heap : List RUDPPacket
  looping_send : Bool
  looping_ack : Bool
  looping_receive : Bool
  syn_handle : Bool
  deriving DecidableEq, Repr

/-- `RUDPConnection.__init__`: the initial sequence number (drawn by
`random.randrange(1, 2**16 - 1)` in the source) is the parameter `n0`. -/
def initConn (n0 : Nat) (own dest : Address) (relay : Option Address) : Conn :=
  { own_addr := own
    dest_addr := dest
    relay_addr := match relay with | none => dest | some r => r
    connected := false
    next_sequence_number := n0
    next_expected_seqnum := 0
    segment_queue := []
    sending_window := []
    receive_heap := []
    looping_send := false
    looping_ack := false
    looping_receive := false
    syn_handle := true }

/-! ### The send window as an insertion-ordered association list -/

/-- Key lookup in the `OrderedDict` send window. -/
def lookupW (k : Nat) : List (Nat × ScheduledPacket) → Option ScheduledPacket
  | [] => none
  | (k', e) :: rest => if k' = k then some e else lookupW k rest

/-- `OrderedDict` assignment `window[k] = e`: replaces in place if the key is
present, otherwise appends at the end. -/
def insertW (k : Nat) (e : ScheduledPacket) : List (Nat × ScheduledPacket) → List (Nat × ScheduledPacket)
  | [] => [(k, e)]
  | (k', e') :: rest => if k' = k then (k, e) :: rest else (k', e') :: insertW k e rest

/-- `OrderedDict.pop(k)`: `none` models the `KeyError`. -/
def popW (k : Nat) : List (Nat × ScheduledPacket) → Option (ScheduledPacket × List (Nat × ScheduledPacket))
  | [] => none
  | (k', e') :: rest =>
    if k' = k then some (e', rest)
    else (popW k rest).map (fun r => (r.1, (k', e') :: r.2))

/-- Keys of the send window, in insertion order. -/
def keysW (w : List (Nat × ScheduledPacket)) : List Nat := w.map Prod.fst

@[simp] theorem lookupW_nil (k : Nat) : lookupW k [] = none := rfl

@[simp] theorem lookupW_cons (k k' : Nat) (e : ScheduledPacket) (rest : List (Nat × ScheduledPacket)) :
    lookupW k ((k', e) :: rest) = if k' = k then some e else lookupW k rest := rfl

@[simp] theorem insertW_nil (k : Nat) (e : ScheduledPacket) : insertW k e [] = [(k, e)] := rfl

@[simp] theorem insertW_cons (k k' : Nat) (e e' : ScheduledPacket) (rest : List (Nat × ScheduledPacket)) :
    insertW k e ((k', e') :: rest) =
      if k' = k then (k, e) :: rest else (k', e') :: insertW k e rest := rfl

@[simp] theorem keysW_nil : keysW [] = [] := rfl

@[simp] theorem keysW_cons (kv : Nat × ScheduledPacket) (rest : List (Nat × ScheduledPacket)) :
    keysW (kv :: rest) = kv.1 :: keysW rest := rfl

/-- A fresh key is appended at the end of the window. -/
theorem insertW_of_not_mem (k : Nat) (e : ScheduledPacket) (w : List (Nat × ScheduledPacket))
    (h : k ∉ keysW w) : insertW k e w = w ++ [(k, e)] := by
  induction w with
  | nil => rfl
  | cons kv rest ih =>
    obtain ⟨k', e'⟩ := kv
    simp only [keysW, List.map_cons, List.mem_cons] at h
    push_neg at h
    simp only [insertW, List.cons_append]
    rw [if_neg (fun hk => h.1 hk.symm), ih h.2]

/-- Replacement at an existing key does not change the key list. -/
theorem keysW_insertW_of_mem (k : Nat) (e : ScheduledPacket) (w : List (Nat × ScheduledPacket))
    (h : k ∈ keysW w) : keysW (insertW k e w) = keysW w := by
  induction w with
  | nil => simp [keysW] at h
  | cons kv rest ih =>
    obtain ⟨k', e'⟩ := kv
    by_cases hk : k' = k
    · simp [insertW, hk, keysW]
    · simp only [keysW, List.map_cons, List.mem_cons] at h
      rcases h with h | h

      · exact absurd h.symm hk
      · have hrec := ih h
        simp only [keysW] at hrec ⊢
        simp [insertW, hk, hrec]

/-! ### `_gen_segments` -/

/-- `RUDPConnection._gen_segments`: split `message` into
`(len + S - 1) // S` pairs `(count - i - 1, message[i*S : (i+1)*S])`. -/
def gen_segments (S : Nat) (message : List Char) : List (Nat × List Char) :=
  let count := (message.length + S - 1) / S
  (List.range count).map (fun i => (count - i - 1, ((message.drop (i * S)).take S)))

example : gen_segments 4 ['a','b','c','d','e','f','g','h','i','j'] =
    [(2, ['a','b','c','d']), (1, ['e','f','g','h']), (0, ['i','j'])] := by decide

example : gen_segments 4 [] = [] := by decide

example : gen_segments 3 ['x','y','z'] = [(0, ['x','y','z'])] := by decide

/-! ### Packets and elementary send operations -/

/-- Mirror of the `packet.RUDPPacket` constructor call shape used by
`connection.py`: `RUDPPacket(seqnum, dest, own, payload, more_fragments,
ack=..., syn=..., fin=...)`. -/
def mkPacket (seq : Nat) (dest source : Address) (payload : List Char) (mf ack : Nat)
    (syn fin : Bool) : RUDPPacket :=
  { sequence_number := seq
    dest_addr := dest
    source_addr := source
    payload := payload
    more_fragments := mf
    ack := ack
    syn := syn
    fin := fin }

/-- The FIN packet built by `_send_fin`. -/
def finPacketOf (c : Conn) : RUDPPacket :=
  mkPacket 0 c.dest_addr c.own_addr [] 0 c.next_expected_seqnum false true

/-- The bare ACK packet built by `_send_ack`. -/
def bareAckPacketOf (c : Conn) : RUDPPacket :=
  mkPacket 0 c.dest_addr c.own_addr [] 0 c.next_expected_seqnum false false

/-- The SYN(ACK) packet built by `_send_syn`: the current
`_next_sequence_number`, unincremented, with the current ack number. -/
def synPacketOf (c : Conn) : RUDPPacket :=
  mkPacket c.next_sequence_number c.dest_addr c.own_addr [] 0 c.next_expected_seqnum true false

/-- `_schedule_send_out_of_order`: serialize and hand to
`proto.send_datagram` immediately; no window entry, no timer. -/
def schedule_send_out_of_order (c : Conn) (p : RUDPPacket) : List Output :=
  [Output.datagram p c.relay_addr]

/-- `_schedule_send_in_order`: store the finalized packet in the send window
under its sequence number together with a fresh (active) timer firing
`_do_send_packet` and a zero retry count. -/
def schedule_send_in_order (c : Conn) (p : RUDPPacket) (timeout : Nat) : Conn :=
  let sch : ScheduledPacket :=
    { rudp_packet := p, timeout := timeout, timeout_cb := true, retries := 0 }
  { c with sending_window := insertW p.sequence_number sch c.sending_window }

/-- `_send_syn`: schedule the SYN(ACK) packet in order with `PACKET_TIMEOUT`. -/
def send_syn (C : Consts) (c : Conn) : Conn :=
  schedule_send_in_order c (synPacketOf c) C.PACKET_TIMEOUT

/-- `_send_fin`: emit a FIN out of order; the connection state is unchanged. -/
def send_fin (c : Conn) : List Output :=
  schedule_send_out_of_order c (finPacketOf c)

/-- `_reset_ack_timeout`: only a *running* ack loop is restarted, and only
while connected; a stopped loop stays stopped.  (Restarting is modelled as
keeping the loop running; the Twisted `now=True` immediate tick of `start`
cannot occur here because the ack loop of a connection is never running,
see the C9 theorems.) -/
def reset_ack_timeout (c : Conn) : Conn :=
  if c.looping_ack = true then
    if c.connected = true then c else { c with looping_ack := false }
  else c

/-- `_send_ack`: emit a bare ACK out of order, then reset the ack timeout. -/
def send_ack (c : Conn) : Conn × List Output :=
  (reset_ack_timeout c, schedule_send_out_of_order c (bareAckPacketOf c))

/-- `_clear_sending_window`: cancel every still-active retransmission timer
and empty the window. -/
def clear_sending_window (c : Conn) : Conn × List Output :=
  ({ c with sending_window := [] },
   (c.sending_window.filter (fun kv => kv.2.timeout_cb)).map (fun kv => Output.cancelTimer kv.1))

/-- `RUDPConnection.shutdown`: set `connected = False`, send a FIN, stop the
three looping calls, clear the send window, notify the handler.  Note the
source has no reentrancy guard: every call performs all of these effects. -/
def shutdown (c : Conn) : Conn × List Output :=
  let c1 : Conn := { c with connected := false }
  let o1 := send_fin c1
  let c2 : Conn := { c1 with looping_ack := false, looping_send := false, looping_receive := false }
  let cleared := clear_sending_window c2
  (cleared.1, o1 ++ cleared.2 ++ [Output.handleShutdown])

/-! ### The looping sender and the outbound path -/

/-- `_attempt_disabling_looping_send`: stop the looping sender when the
window is full or the segment queue is empty. -/
def attempt_disabling_looping_send (C : Consts) (c : Conn) : Conn :=
  if c.looping_send = true ∧
      (C.WINDOW_SIZE ≤ c.sending_window.length ∨ c.segment_queue = []) then
    { c with looping_send := false }
  else c

/-- `_dequeue_outbound_message`: pop one segment (the `assert` on a nonempty
queue is a crash, `none`), wrap it in a packet stamped with
`_get_next_sequence_number()` (which increments first) and the current ack
number, schedule it in order, then attempt to disable the looping sender. -/
def dequeue_outbound_message (C : Consts) (c : Conn) : Option (Conn × List Output) :=
  match c.segment_queue with
  | [] => none
  | (more_fragments, message) :: queueRest =>
    let c1 : Conn := { c with
      segment_queue := queueRest
      next_sequence_number := c.next_sequence_number + 1 }
    let p := mkPacket c1.next_sequence_number c1.dest_addr c1.own_addr message more_fragments
      c1.next_expected_seqnum false false
    let c2 := schedule_send_in_order c1 p C.PACKET_TIMEOUT
    some (attempt_disabling_looping_send C c2, [])

/-- `_attempt_enabling_looping_send`: start the looping sender iff connected,
not already running, the window is below `WINDOW_SIZE` and the segment queue
is nonempty.  `LoopingCall.start(0)` defaults to `now=True`, so starting the
loop immediately performs the first dequeue tick. -/
def attempt_enabling_looping_send (C : Consts) (c : Conn) : Option (Conn × List Output) :=
  if c.connected = true ∧ c.looping_send = false ∧
      c.sending_window.length < C.WINDOW_SIZE ∧ c.segment_queue ≠ [] then
    dequeue_outbound_message C { c with looping_send := true }
  else some (c, [])

/-- `RUDPConnection.send_message`: segment the message, append the segments
to the queue, attempt to enable the looping sender. -/
def send_message (C : Consts) (c : Conn) (message : List Char) : Option (Conn × List Output) :=
  attempt_enabling_looping_send C
    { c with segment_queue := c.segment_queue ++ gen_segments C.UDP_SAFE_SEGMENT_SIZE message }

/-- `_do_send_packet`: look the scheduled packet up (`KeyError` is `none`);
at `retries >= MAX_RETRANSMISSIONS` shut the connection down, otherwise
transmit the stored datagram, re-arm the timer, increment `retries`, and
reset the ack timeout. -/
def do_send_packet (C : Consts) (c : Conn) (seqnum : Nat) : Option (Conn × List Output) :=
  match lookupW seqnum c.sending_window with
  | none => none
  | some sch =>
    if C.MAX_RETRANSMISSIONS ≤ sch.retries then some (shutdown c)
    else
      let sch2 : ScheduledPacket := { sch with timeout_cb := true, retries := sch.retries + 1 }
      let c2 : Conn := { c with sending_window := insertW seqnum sch2 c.sending_window }
      some (reset_ack_timeout c2, [Output.datagram sch.rudp_packet c.relay_addr])

/-! ### Retirement of acknowledged packets -/

/-- The loop `for seqnum in range(lowest_seqnum, acknum): pop(seqnum)` of
`_retire_packets_with_seqnum_up_to`; a missing key is the `KeyError` crash. -/
def retireLoop (w : List (Nat × ScheduledPacket)) :
    List Nat → Option (List (Nat × ScheduledPacket) × List Output)
  | [] => some (w, [])
  | s :: rest =>
    match popW s w with
    | none => none
    | some r => (retireLoop r.2 rest).map (fun r2 => (r2.1, Output.cancelTimer s :: r2.2))

/-- `_retire_packets_with_seqnum_up_to`: with a nonempty window, clamp
`acknum` to `min(acknum, _next_sequence_number)`, pop every seqnum in
`range(lowest, acknum)` cancelling its timer, and if anything was removed
attempt to enable the looping sender. -/
def retire_packets_with_seqnum_up_to (C : Consts) (c : Conn) (acknum : Nat) :
    Option (Conn × List Output) :=
  match c.sending_window with
  | [] => some (c, [])
  | (lowest, _) :: _ =>
    let acknum2 := min acknum c.next_sequence_number
    match retireLoop c.sending_window (List.range' lowest (acknum2 - lowest)) with
    | none => none
    | some r =>
      let c2 : Conn := { c with sending_window := r.1 }
      if lowest < acknum2 then
        (attempt_enabling_looping_send C c2).map (fun r2 => (r2.1, r.2 ++ r2.2))
      else some (c2, r.2)

/-! ### The receive heap (modelled from the spec) -/

/-- Ordered insertion into the receive heap.
Modelled from the spec: the `heap` module is not among the sources; spec
section 4.A specifies a min-heap on `sequence_number`. -/
def heapInsert (p : RUDPPacket) : List RUDPPacket → List RUDPPacket
  | [] => [p]
  | q :: rest =>
    if p.sequence_number ≤ q.sequence_number then p :: q :: rest else q :: heapInsert p rest

/-- `heap.Heap.push`.  Modelled from the spec: insert unless a packet with
the same sequence number is already buffered (duplicates are dropped). -/
def heapPush (h : List RUDPPacket) (p : RUDPPacket) : List RUDPPacket :=
  if h.any (fun q => q.sequence_number = p.sequence_number) then h else heapInsert p h

/-- Collect the continuation of a fragment run: `mf` further packets with
consecutive sequence numbers and a `more_fragments` countdown ending at `0`.
Modelled from the spec (section 4.A, `attempt_pop_message`). -/
def popRunAux : Nat → Nat → List RUDPPacket → Option (List RUDPPacket × List RUDPPacket)
  | 0, _, rest => some ([], rest)
  | _ + 1, _, [] => none
  | mf + 1, seqExp, q :: rest =>
    if q.sequence_number = seqExp ∧ q.more_fragments = mf then
      (popRunAux mf (seqExp + 1) rest).map (fun r => (q :: r.1, r.2))
    else none

/-- `heap.Heap.attempt_popping_all_fragments`.  Modelled from the spec:
starting at the minimum, pop the fragments of one complete message
(consecutive seqnums, `more_fragments` counting down to `0`); on failure
leave the heap unchanged (`none`). -/
def heapPopAll : List RUDPPacket → Option (RUDPPacket × List RUDPPacket × List RUDPPacket)
  | [] => none
  | p :: rest =>
    match popRunAux p.more_fragments (p.sequence_number + 1) rest with
    | none => none
    | some r => some (p, r.1, r.2)

/-- `_attempt_enabling_looping_receive` is called by `connection.py` but not
defined in it.  Modelled from the spec: start the looping receive driver
under the idempotent `running` guard (spec sections 4.F and 9). -/
def attempt_enabling_looping_receive (c : Conn) : Conn :=
  if c.looping_receive = true then c else { c with looping_receive := true }

/-- `_attempt_disabling_looping_receive` is called by `connection.py` but not
defined in it.  Modelled from the spec: stop the looping receive driver under
the idempotent `running` guard. -/
def attempt_disabling_looping_receive (c : Conn) : Conn :=
  if c.looping_receive = true then { c with looping_receive := false } else c

/-- `_pop_received_packet`: attempt to pop one reassembled message; on
failure disable the looping receive driver, on success advance
`_next_expected_seqnum` past the last fragment if it extends the delivered
prefix, reset the ack timeout, and deliver the concatenated payload. -/
def pop_received_packet (c : Conn) : Conn × List Output :=
  match heapPopAll c.receive_heap with
  | none => (attempt_disabling_looping_receive c, [])
  | some (first, moreFrags, heapRest) =>
    let fragments := first :: moreFrags
    let c1 : Conn := { c with receive_heap := heapRest }
    let lastSeq := (moreFrags.getLastD first).sequence_number
    let c2 := if c1.next_expected_seqnum ≤ lastSeq then
        reset_ack_timeout { c1 with next_expected_seqnum := lastSeq + 1 }
      else c1
    (c2, [Output.receiveMessage ((fragments.map RUDPPacket.payload).flatten)])

/-! ### Inbound dispatch -/

/-- `_process_fin_packet`: simply shut down. -/
def process_fin_packet (c : Conn) (_p : RUDPPacket) : Conn × List Output :=
  shutdown c

/-- `_process_casual_packet`: retire acknowledged packets when `ack > 0` and
the window is nonempty; buffer a positive-seqnum packet in the receive heap,
and when it is the next expected one advance the ack number, re-arm the bare
ACK timer and attempt to enable the looping receive driver. -/
def process_casual_packet (C : Consts) (c : Conn) (p : RUDPPacket) : Option (Conn × List Output) :=
  let step1 : Option (Conn × List Output) :=
    if 0 < p.ack ∧ c.sending_window ≠ [] then retire_packets_with_seqnum_up_to C c p.ack
    else some (c, [])
  match step1 with
  | none => none
  | some (c1, os) =>
    if 0 < p.sequence_number then
      let c2 : Conn := { c1 with receive_heap := heapPush c1.receive_heap p }
      if p.sequence_number = c2.next_expected_seqnum then
        let c3 : Conn := { c2 with next_expected_seqnum := c2.next_expected_seqnum + 1 }
        some (attempt_enabling_looping_receive (reset_ack_timeout c3), os)
      else some (c2, os)
    else some (c1, os)

/-- `_process_syn_packet`: for a SYNACK (`ack > 0`), silently drop on an
empty window, accept only `ack == lowest_seqnum + 1` (pop that entry, cancel
its timer, connect, attempt to enable the looping sender); for a bare SYN
(`ack == 0`), set the ack number past the peer's seqnum, clear the window,
re-send the SYN immediately iff the initial one-shot has already fired, and
connect. -/
def process_syn_packet (C : Consts) (c : Conn) (p : RUDPPacket) : Option (Conn × List Output) :=
  if 0 < p.ack then
    match c.sending_window with
    | [] => some (c, [])
    | (lowest, _) :: rest =>
      if p.ack = lowest + 1 then
        let c2 : Conn := { c with sending_window := rest, connected := true }
        (attempt_enabling_looping_send C c2).map
          (fun r => (r.1, Output.cancelTimer lowest :: r.2))
      else some (c, [])
  else
    let c1 : Conn := { c with next_expected_seqnum := p.sequence_number + 1 }
    let cleared := clear_sending_window c1
    let c2 := if cleared.1.syn_handle = true then cleared.1 else send_syn C cleared.1
    some ({ c2 with connected := true }, cleared.2)

/-- `RUDPConnection.receive_packet`: FIN packets are processed iff connected
or the initial SYN one-shot is no longer active; SYN packets iff not
connected; casual packets iff connected; every other packet is silently
dropped. -/
def receive_packet (C : Consts) (c : Conn) (p : RUDPPacket) : Option (Conn × List Output) :=
  if p.fin = true then
    if c.connected = true ∨ c.syn_handle = false then some (process_fin_packet c p)
    else some (c, [])
  else if p.syn = true then
    if c.connected = false then process_syn_packet C c p
    else some (c, [])
  else if c.connected = true then process_casual_packet C c p
  else some (c, [])

/-! ### Event semantics -/

/-- The events that drive a connection: the two public methods and the
shutdown call, and the firings of the reactor timers it owns (each enabled
only while the corresponding timer is active/running). -/
inductive Event where
  | sendMessage (message : List Char)
  | recvPacket (p : RUDPPacket)
  | shutdownCall
  | synTimeout
  | packetTimeout (seqnum : Nat)
  | tickSend
  | tickAck
  | tickReceive
  deriving DecidableEq, Repr

/-- A `DelayedCall` that fires is no longer active when its callback runs. -/
def markTimerFired (k : Nat) (w : List (Nat × ScheduledPacket)) : List (Nat × ScheduledPacket) :=
  w.map (fun kv => if kv.1 = k then (kv.1, { kv.2 with timeout_cb := false }) else kv)

/-- One event of the connection: public calls are always enabled, timer
events only while their timer is active.  `none` is an unreachable event or
a crash of the handler code. -/
def step (C : Consts) (c : Conn) : Event → Option (Conn × List Output)
  | .sendMessage m => send_message C c m
  | .recvPacket p => receive_packet C c p
  | .shutdownCall => some (shutdown c)
  | .synTimeout =>
    if c.syn_handle = true then some (send_syn C { c with syn_handle := false }, [])
    else none
  | .packetTimeout seqnum =>
    match lookupW seqnum c.sending_window with
    | none => none
    | some sch =>
      if sch.timeout_cb = true then
        do_send_packet C { c with sending_window := markTimerFired seqnum c.sending_window } seqnum
      else none
  | .tickSend => if c.looping_send = true then dequeue_outbound_message C c else none
  | .tickAck => if c.looping_ack = true then some (send_ack c) else none
  | .tickReceive => if c.looping_receive = true then some (pop_received_packet c) else none

/-- Run a sequence of events, collecting all outputs. -/
def run (C : Consts) (c : Conn) : List Event → Option (Conn × List Output)
  | [] => some (c, [])
  | e :: es =>
    match step C c e with
    | none => none
    | some r => (run C r.1 es).map (fun r2 => (r2.1, r.2 ++ r2.2))


/-! ### Further send-window lemmas -/

theorem lookupW_mem (k : Nat) (e : ScheduledPacket) (w : List (Nat × ScheduledPacket))
    (h : lookupW k w = some e) : (k, e) ∈ w := by
  induction w with
  | nil => simp [lookupW] at h
  | cons kv rest ih =>
    obtain ⟨k', e'⟩ := kv
    rw [lookupW_cons] at h
    split at h
    · next heq =>
      cases h
      subst heq
      exact List.mem_cons_self _ _
    · exact List.mem_cons_of_mem _ (ih h)

theorem mem_insertW (k : Nat) (e : ScheduledPacket) (w : List (Nat × ScheduledPacket))
    (kv : Nat × ScheduledPacket) (h : kv ∈ insertW k e w) : kv = (k, e) ∨ kv ∈ w := by
  induction w with
  | nil => simp [insertW] at h; exact Or.inl h
  | cons kv' rest ih =>
    obtain ⟨k', e'⟩ := kv'
    rw [insertW_cons] at h
    split at h
    · rcases List.mem_cons.mp h with h2 | h2
      · exact Or.inl h2
      · exact Or.inr (List.mem_cons_of_mem _ h2)
    · rcases List.mem_cons.mp h with h2 | h2
      · exact Or.inr (by simp [h2])
      · rcases ih h2 with h3 | h3
        · exact Or.inl h3
        · exact Or.inr (List.mem_cons_of_mem _ h3)

theorem insertW_length_of_mem (k : Nat) (e : ScheduledPacket) (w : List (Nat × ScheduledPacket))
    (h : k ∈ keysW w) : (insertW k e w).length = w.length := by
  induction w with
  | nil => simp [keysW] at h
  | cons kv rest ih =>
    obtain ⟨k', e'⟩ := kv
    rw [insertW_cons]
    split
    · simp
    · next hk =>
      simp only [keysW, List.map_cons, List.mem_cons] at h
      rcases h with h | h
      · exact absurd h.symm hk
      · simp only [List.length_cons]
        rw [ih (by simpa [keysW] using h)]

theorem insertW_length_of_not_mem (k : Nat) (e : ScheduledPacket) (w : List (Nat × ScheduledPacket))
    (h : k ∉ keysW w) : (insertW k e w).length = w.length + 1 := by
  rw [insertW_of_not_mem k e w h]
  simp

theorem lookupW_insertW_self (k : Nat) (e : ScheduledPacket) (w : List (Nat × ScheduledPacket)) :
    lookupW k (insertW k e w) = some e := by
  induction w with
  | nil => simp [insertW, lookupW]
  | cons kv rest ih =>
    obtain ⟨k', e'⟩ := kv
    rw [insertW_cons]
    split
    · simp [lookupW]
    · next hk => simp [lookupW, hk, ih]

theorem popW_mem_entry (k : Nat) (w : List (Nat × ScheduledPacket)) (e : ScheduledPacket)
    (w2 : List (Nat × ScheduledPacket)) (h : popW k w = some (e, w2)) : (k, e) ∈ w := by
  induction w generalizing w2 with
  | nil => simp [popW] at h
  | cons kv rest ih =>
    obtain ⟨k', e'⟩ := kv
    unfold popW at h
    split at h
    · next heq =>
      cases h
      subst heq
      exact List.mem_cons_self _ _
    · rcases hpop : popW k rest with _ | ⟨re, rw2⟩
      · rw [hpop] at h; simp at h
      · rw [hpop] at h
        simp only [Option.map_some', Option.some.injEq, Prod.mk.injEq] at h
        obtain ⟨rfl, rfl⟩ := h
        exact List.mem_cons_of_mem _ (ih rw2 hpop)

theorem popW_sublist (k : Nat) (w : List (Nat × ScheduledPacket)) (e : ScheduledPacket)
    (w2 : List (Nat × ScheduledPacket)) (h : popW k w = some (e, w2)) : w2.Sublist w := by
  induction w generalizing w2 with
  | nil => simp [popW] at h
  | cons kv rest ih =>
    obtain ⟨k', e'⟩ := kv
    unfold popW at h
    split at h
    · cases h
      exact List.sublist_cons_self _ _
    · rcases hpop : popW k rest with _ | ⟨re, rw2⟩
      · rw [hpop] at h; simp at h
      · rw [hpop] at h
        simp only [Option.map_some', Option.some.injEq, Prod.mk.injEq] at h
        obtain ⟨rfl, rfl⟩ := h
        exact List.Sublist.cons₂ _ (ih rw2 hpop)

theorem popW_keys_mem (k : Nat) (w : List (Nat × ScheduledPacket)) (e : ScheduledPacket)
    (w2 : List (Nat × ScheduledPacket)) (h : popW k w = some (e, w2))
    (k' : Nat) (hne : k' ≠ k) (hmem : k' ∈ keysW w) : k' ∈ keysW w2 := by
  induction w generalizing w2 with
  | nil => simp [popW] at h
  | cons kv rest ih =>
    obtain ⟨k1, e1⟩ := kv
    unfold popW at h
    split at h
    · next heq =>
      cases h
      subst heq
      simp only [keysW, List.map_cons, List.mem_cons] at hmem
      rcases hmem with hmem | hmem
      · exact absurd hmem hne
      · simpa [keysW] using hmem
    · rcases hpop : popW k rest with _ | ⟨re, rw2⟩
      · rw [hpop] at h; simp at h
      · rw [hpop] at h
        simp only [Option.map_some', Option.some.injEq, Prod.mk.injEq] at h
        obtain ⟨rfl, rfl⟩ := h
        simp only [keysW, List.map_cons, List.mem_cons] at hmem ⊢
        rcases hmem with hmem | hmem
        · exact Or.inl hmem
        · exact Or.inr (by simpa [keysW] using ih rw2 hpop (by simpa [keysW] using hmem))

theorem retireLoop_sublist (seqs : List Nat) (w w2 : List (Nat × ScheduledPacket))
    (os : List Output) (h : retireLoop w seqs = some (w2, os)) : w2.Sublist w := by
  induction seqs generalizing w os with
  | nil =>
    simp only [retireLoop, Option.some.injEq, Prod.mk.injEq] at h
    rw [← h.1]
  | cons s rest ih =>
    unfold retireLoop at h
    split at h
    · simp at h
    · next r hpop =>
      obtain ⟨re, rw1⟩ := r
      rcases hrec : retireLoop rw1 rest with _ | ⟨rw2, ros⟩
      · rw [hrec] at h; simp at h
      · rw [hrec] at h
        simp only [Option.map_some', Option.some.injEq, Prod.mk.injEq] at h
        obtain ⟨rfl, rfl⟩ := h
        exact (ih rw1 ros hrec).trans (popW_sublist s w re rw1 hpop)

theorem retireLoop_keys_mem (seqs : List Nat) (w w2 : List (Nat × ScheduledPacket))
    (os : List Output) (h : retireLoop w seqs = some (w2, os))
    (k : Nat) (hk : k ∉ seqs) (hmem : k ∈ keysW w) : k ∈ keysW w2 := by
  induction seqs generalizing w os with
  | nil =>
    simp only [retireLoop, Option.some.injEq, Prod.mk.injEq] at h
    rw [← h.1]; exact hmem
  | cons s rest ih =>
    unfold retireLoop at h
    split at h
    · simp at h
    · next r hpop =>
      obtain ⟨re, rw1⟩ := r
      rcases hrec : retireLoop rw1 rest with _ | ⟨rw2, ros⟩
      · rw [hrec] at h; simp at h
      · rw [hrec] at h
        simp only [Option.map_some', Option.some.injEq, Prod.mk.injEq] at h
        obtain ⟨rfl, rfl⟩ := h
        simp only [List.mem_cons] at hk
        push_neg at hk
        exact ih rw1 ros hrec hk.2 (popW_keys_mem s w re rw1 hpop k hk.1 hmem)

theorem keysW_sublist (w2 w : List (Nat × ScheduledPacket)) (h : w2.Sublist w) :
    (keysW w2).Sublist (keysW w) := List.Sublist.map _ h

@[simp] theorem markTimerFired_nil (k : Nat) : markTimerFired k [] = [] := rfl

theorem markTimerFired_cons (k k' : Nat) (e' : ScheduledPacket) (rest : List (Nat × ScheduledPacket)) :
    markTimerFired k ((k', e') :: rest) =
      (if k' = k then (k', { e' with timeout_cb := false }) else (k', e')) :: markTimerFired k rest := by
  by_cases hk : k' = k <;> simp [markTimerFired, hk]

theorem keysW_markTimerFired (k : Nat) (w : List (Nat × ScheduledPacket)) :
    keysW (markTimerFired k w) = keysW w := by
  induction w with
  | nil => rfl
  | cons kv rest ih =>
    obtain ⟨k', e'⟩ := kv
    rw [markTimerFired_cons]
    by_cases hk : k' = k <;> simp [hk, keysW] <;> simpa [keysW] using ih

theorem length_markTimerFired (k : Nat) (w : List (Nat × ScheduledPacket)) :
    (markTimerFired k w).length = w.length := by
  simp [markTimerFired]

theorem mem_markTimerFired (k : Nat) (w : List (Nat × ScheduledPacket))
    (kv : Nat × ScheduledPacket) (h : kv ∈ markTimerFired k w) :
    ∃ kv0 ∈ w, kv.1 = kv0.1 ∧ kv.2.rudp_packet = kv0.2.rudp_packet ∧
      kv.2.retries = kv0.2.retries := by
  simp only [markTimerFired, List.mem_map] at h
  obtain ⟨kv0, hkv0, heq⟩ := h
  refine ⟨kv0, hkv0, ?_⟩
  by_cases hk : kv0.1 = k
  · rw [if_pos hk] at heq
    rw [← heq]
    exact ⟨rfl, rfl, rfl⟩
  · rw [if_neg hk] at heq
    rw [← heq]
    exact ⟨rfl, rfl, rfl⟩

theorem lookupW_markTimerFired_self (k : Nat) (w : List (Nat × ScheduledPacket)) :
    lookupW k (markTimerFired k w) =
      (lookupW k w).map (fun e => { e with timeout_cb := false }) := by
  induction w with
  | nil => rfl
  | cons kv rest ih =>
    obtain ⟨k', e'⟩ := kv
    rw [markTimerFired_cons]
    by_cases hk : k' = k
    · rw [if_pos hk]
      subst hk
      simp [lookupW]
    · rw [if_neg hk]
      simp [lookupW, hk, ih]

/-! ### C4: properties of the segmenter -/

theorem gen_segments_flatten_aux (S : Nat) (m : List Char) (n : Nat) :
    ((List.range n).map (fun i => ((m.drop (i * S)).take S))).flatten = m.take (n * S) := by
  induction n with
  | zero => simp
  | succ n ih =>
    rw [List.range_succ, List.map_append, List.flatten_append]
    simp only [List.map_cons, List.map_nil, List.flatten_cons, List.flatten_nil, List.append_nil]
    rw [ih, Nat.succ_mul, List.take_add]

theorem length_le_ceil_mul (S len : Nat) (hS : 0 < S) : len ≤ ((len + S - 1) / S) * S := by
  have h1 := Nat.div_add_mod (len + S - 1) S
  have h2 : (len + S - 1) % S < S := Nat.mod_lt _ hS
  rw [Nat.mul_comm]
  generalize hP : S * ((len + S - 1) / S) = P at h1
  omega

/-- C4: for segment size `S > 0` the segmenter produces exactly
`ceil(len/S) = (len + S - 1) / S` pairs; their slices concatenated in order
give back the message; the `remaining` counters run `count-1, count-2, ..., 0`
(so they strictly decrease, the last is `0` and all earlier ones are
positive); a nonempty message yields at least one segment and the empty
message yields none. -/
theorem C4_gen_segments_round_trip (S : Nat) (hS : 0 < S) (m : List Char) :
    (gen_segments S m).length = (m.length + S - 1) / S
    ∧ ((gen_segments S m).map Prod.snd).flatten = m
    ∧ (∀ i, (h : i < (gen_segments S m).length) →
        ((gen_segments S m).get ⟨i, h⟩).fst = (gen_segments S m).length - 1 - i)
    ∧ (m ≠ [] → 0 < (gen_segments S m).length)
    ∧ (m = [] → gen_segments S m = []) := by
  have hlen : (gen_segments S m).length = (m.length + S - 1) / S := by
    simp [gen_segments]
  refine ⟨hlen, ?_, ?_, ?_, ?_⟩
  · unfold gen_segments
    rw [List.map_map]
    have hcomp : (Prod.snd ∘ fun i =>
        ((m.length + S - 1) / S - i - 1, (m.drop (i * S)).take S))
        = fun i => (m.drop (i * S)).take S := rfl
    rw [hcomp, gen_segments_flatten_aux]
    exact List.take_of_length_le (length_le_ceil_mul S m.length hS)
  · intro i h
    have h2 : i < (m.length + S - 1) / S := by rw [← hlen]; exact h
    simp only [gen_segments, List.get_eq_getElem, List.getElem_map, List.getElem_range,
      List.length_map, List.length_range]
    omega
  · intro hm
    rw [hlen]
    have : 0 < m.length := List.length_pos.mpr hm
    have h1 := Nat.div_add_mod (m.length + S - 1) S
    have h2 : (m.length + S - 1) % S < S := Nat.mod_lt _ hS
    generalize hP : S * ((m.length + S - 1) / S) = P at h1
    rcases Nat.eq_zero_or_pos ((m.length + S - 1) / S) with h0 | h0
    · rw [h0] at hP; omega
    · exact h0
  · intro hm
    subst hm
    unfold gen_segments
    simp only [List.length_nil, Nat.zero_add]
    rw [Nat.div_eq_of_lt (by omega)]
    rfl

/-- Concrete constants used by witnesses and counterexamples:
segment size 4, window size 2, all timeouts 1 second, 2 retransmissions. -/
def Cx : Consts :=
  { UDP_SAFE_SEGMENT_SIZE := 4
    WINDOW_SIZE := 2
    PACKET_TIMEOUT := 1
    BARE_ACK_TIMEOUT := 1
    KEEP_ALIVE_TIMEOUT := 1
    MAX_RETRANSMISSIONS := 2 }

/-- A concrete local address. -/
def addrA : Address := ("10.0.0.1", 1000)

/-- A concrete remote address. -/
def addrB : Address := ("10.0.0.2", 2000)

/-- A freshly created connection with initial sequence number 5 and no relay. -/
def connA : Conn := initConn 5 addrA addrB none

/-- Witness for C4 at `S = 4` and the ten-byte message of spec scenario 2:
three segments whose slices concatenate back to the message. -/
theorem C4_witness :
    (gen_segments 4 ['a','b','c','d','e','f','g','h','i','j']).length = 3
    ∧ ((gen_segments 4 ['a','b','c','d','e','f','g','h','i','j']).map Prod.snd).flatten
        = ['a','b','c','d','e','f','g','h','i','j'] := by
  have h := C4_gen_segments_round_trip 4 (by decide) ['a','b','c','d','e','f','g','h','i','j']
  exact ⟨h.1, h.2.1⟩

/-! ### C5: the `receive_packet` dispatch table -/

/-- Case analysis of the `receive_packet` dispatch. -/
theorem receive_packet_cases (C : Consts) (c : Conn) (p : RUDPPacket) :
    (p.fin = true → (c.connected = true ∨ c.syn_handle = false) →
        receive_packet C c p = some (process_fin_packet c p))
    ∧ (p.fin = true → c.connected = false → c.syn_handle = true →
        receive_packet C c p = some (c, []))
    ∧ (p.fin = false → p.syn = true → c.connected = false →
        receive_packet C c p = process_syn_packet C c p)
    ∧ (p.fin = false → p.syn = true → c.connected = true →
        receive_packet C c p = some (c, []))
    ∧ (p.fin = false → p.syn = false → c.connected = true →
        receive_packet C c p = process_casual_packet C c p)
    ∧ (p.fin = false → p.syn = false → c.connected = false →
        receive_packet C c p = some (c, [])) := by
  refine ⟨?_, ?_, ?_, ?_, ?_, ?_⟩ <;> intros <;> unfold receive_packet <;> simp_all

/-- C5: `receive_packet` dispatches exactly as claimed: a FIN packet is
processed iff `connected` or the SYN one-shot is inactive and is otherwise
dropped with no state change and no output; otherwise a SYN packet is
processed as handshake SYN iff not connected; otherwise a casual packet is
processed iff connected; all remaining cases are silent drops leaving the
state unchanged and emitting nothing. -/
theorem C5_receive_dispatch (C : Consts) (c : Conn) (p : RUDPPacket) :
    (p.fin = true → (c.connected = true ∨ c.syn_handle = false) →
        receive_packet C c p = some (process_fin_packet c p))
    ∧ (p.fin = true → c.connected = false → c.syn_handle = true →
        receive_packet C c p = some (c, []))
    ∧ (p.fin = false → p.syn = true → c.connected = false →
        receive_packet C c p = process_syn_packet C c p)
    ∧ (p.fin = false → p.syn = true → c.connected = true →
        receive_packet C c p = some (c, []))
    ∧ (p.fin = false → p.syn = false → c.connected = true →
        receive_packet C c p = process_casual_packet C c p)
    ∧ (p.fin = false → p.syn = false → c.connected = false →
        receive_packet C c p = some (c, [])) :=
  receive_packet_cases C c p

/-- Witness for C5: a concrete FIN packet arriving at a fresh connection
(not connected, SYN one-shot still pending) is dropped unchanged. -/
theorem C5_witness :
    receive_packet Cx connA (mkPacket 0 addrA addrB [] 0 0 false true) = some (connA, []) :=
  (C5_receive_dispatch Cx connA (mkPacket 0 addrA addrB [] 0 0 false true)).2.1 rfl rfl rfl

/-! ### Effect lemmas for the looping-send path -/

theorem attempt_disabling_eq (C : Consts) (c : Conn) :
    attempt_disabling_looping_send C c = c
    ∨ attempt_disabling_looping_send C c = { c with looping_send := false } := by
  unfold attempt_disabling_looping_send
  split
  · exact Or.inr rfl
  · exact Or.inl rfl

theorem attempt_disabling_run_iff (C : Consts) (c : Conn) :
    (attempt_disabling_looping_send C c).looping_send = true ↔
      (c.looping_send = true ∧ c.sending_window.length < C.WINDOW_SIZE ∧
        c.segment_queue ≠ []) := by
  unfold attempt_disabling_looping_send
  split
  · next hcond =>
    constructor
    · intro h
      simp at h
    · rintro ⟨h1, h2, h3⟩
      rcases hcond.2 with h4 | h4
      · omega
      · exact absurd h4 h3
  · next hcond =>
    push_neg at hcond
    constructor
    · intro h
      refine ⟨h, ?_, (hcond h).2⟩
      have := (hcond h).1
      omega
    · intro h
      exact h.1

theorem dequeue_eq (C : Consts) (c : Conn) (mf : Nat) (msg : List Char)
    (qrest : List (Nat × List Char)) (hq : c.segment_queue = (mf, msg) :: qrest) :
    dequeue_outbound_message C c = some
      (attempt_disabling_looping_send C
        { c with
          segment_queue := qrest
          next_sequence_number := c.next_sequence_number + 1
          sending_window := insertW (c.next_sequence_number + 1)
            ({ rudp_packet := mkPacket (c.next_sequence_number + 1) c.dest_addr c.own_addr msg mf
                c.next_expected_seqnum false false
               timeout := C.PACKET_TIMEOUT
               timeout_cb := true
               retries := 0 })
            c.sending_window }, []) := by
  unfold dequeue_outbound_message schedule_send_in_order
  rw [hq]
  rfl

theorem attempt_enabling_not_guard (C : Consts) (c : Conn)
    (h : ¬(c.connected = true ∧ c.looping_send = false ∧
        c.sending_window.length < C.WINDOW_SIZE ∧ c.segment_queue ≠ [])) :
    attempt_enabling_looping_send C c = some (c, []) := by
  unfold attempt_enabling_looping_send
  rw [if_neg h]

theorem attempt_enabling_guard (C : Consts) (c : Conn) (mf : Nat) (msg : List Char)
    (qrest : List (Nat × List Char))
    (hcon : c.connected = true) (hrun : c.looping_send = false)
    (hlen : c.sending_window.length < C.WINDOW_SIZE)
    (hq : c.segment_queue = (mf, msg) :: qrest) :
    attempt_enabling_looping_send C c = some
      (attempt_disabling_looping_send C
        { c with
          looping_send := true
          segment_queue := qrest
          next_sequence_number := c.next_sequence_number + 1
          sending_window := insertW (c.next_sequence_number + 1)
            ({ rudp_packet := mkPacket (c.next_sequence_number + 1) c.dest_addr c.own_addr msg mf
                c.next_expected_seqnum false false
               timeout := C.PACKET_TIMEOUT
               timeout_cb := true
               retries := 0 })
            c.sending_window }, []) := by
  unfold attempt_enabling_looping_send
  rw [if_pos ⟨hcon, hrun, hlen, by rw [hq]; simp⟩]
  exact dequeue_eq C { c with looping_send := true } mf msg qrest (by simpa using hq)

/-! ### C6: SYNACK handling while not connected -/

/-- C6: a SYN packet with `ack > 0` received while not connected is dropped
with no state change and no output when the send window is empty; with a
nonempty window whose oldest entry has seqnum `L`, an ack different from
`L + 1` is also dropped silently, while `ack = L + 1` removes exactly that
oldest entry, cancels its retransmission timer, and sets `connected`;
no datagram is emitted in any of these cases (the only outputs are the
timer cancellation). -/
theorem C6_synack_handshake (C : Consts) (c : Conn) (p : RUDPPacket)
    (hf : p.fin = false) (hs : p.syn = true) (hc : c.connected = false) (ha : 0 < p.ack)
    (hkeys : ∀ k ∈ keysW c.sending_window, k ≤ c.next_sequence_number) :
    (c.sending_window = [] → receive_packet C c p = some (c, []))
    ∧ (∀ L e rest, c.sending_window = (L, e) :: rest → p.ack ≠ L + 1 →
        receive_packet C c p = some (c, []))
    ∧ (∀ L e rest, c.sending_window = (L, e) :: rest → p.ack = L + 1 →
        ∃ c2, receive_packet C c p = some (c2, [Output.cancelTimer L])
          ∧ c2.connected = true
          ∧ (c2.sending_window = rest
             ∨ ∃ sch, c2.sending_window = rest ++ [(c.next_sequence_number + 1, sch)])) := by
  have hdispatch : receive_packet C c p = process_syn_packet C c p :=
    (receive_packet_cases C c p).2.2.1 hf hs hc
  rw [hdispatch]
  unfold process_syn_packet
  rw [if_pos ha]
  refine ⟨?_, ?_, ?_⟩
  · intro hwin
    rw [hwin]
  · intro L e rest hwin hack
    rw [hwin]
    simp only [if_neg hack]
  · intro L e rest hwin hack
    rw [hwin]
    simp only [if_pos hack]
    rcases hq : c.segment_queue with _ | ⟨⟨mf, msg⟩, qrest⟩
    · rw [attempt_enabling_not_guard C _ (fun hg => absurd rfl hg.2.2.2)]
      simp only [Option.map_some']
      exact ⟨_, rfl, rfl, Or.inl rfl⟩
    · by_cases hg : (c.looping_send = false ∧ rest.length < C.WINDOW_SIZE)
      · rw [attempt_enabling_guard C
          { c with connected := true, segment_queue := (mf, msg) :: qrest, sending_window := rest }
          mf msg qrest rfl hg.1 hg.2 rfl]
        simp only [Option.map_some']
        refine ⟨_, rfl, ?_, ?_⟩
        · rcases attempt_disabling_eq C _ with hd | hd <;> rw [hd]
        · have hfresh : ∀ sch : ScheduledPacket,
              insertW (c.next_sequence_number + 1) sch rest
                = rest ++ [(c.next_sequence_number + 1, sch)] := by
            intro sch
            apply insertW_of_not_mem
            intro hmem
            have h1 : c.next_sequence_number + 1 ∈ keysW c.sending_window := by
              rw [hwin]
              exact List.mem_cons_of_mem _ hmem
            have := hkeys _ h1
            omega
          rcases attempt_disabling_eq C _ with hd | hd <;> rw [hd] <;>
            exact Or.inr ⟨_, hfresh _⟩
      · rw [attempt_enabling_not_guard C
          { c with connected := true, segment_queue := (mf, msg) :: qrest, sending_window := rest }
          (fun hgg => hg ⟨hgg.2.1, hgg.2.2.1⟩)]
        simp only [Option.map_some']
        exact ⟨_, rfl, rfl, Or.inl rfl⟩

/-- The scheduled SYN entry of `connA` (as produced by its `_send_syn`). -/
def schedSyn : ScheduledPacket :=
  { rudp_packet := synPacketOf connA
    timeout := Cx.PACKET_TIMEOUT
    timeout_cb := true
    retries := 0 }

/-- `connA` after its SYN has been scheduled: window `{5}`, last issued
sequence number 5. -/
def connW : Conn := { connA with sending_window := [(5, schedSyn)] }

/-- A SYNACK from the peer acknowledging the SYN of `connW`. -/
def synackP : RUDPPacket := mkPacket 10 addrA addrB [] 0 6 true false

/-- `connW` after accepting `synackP`. -/
def connW2 : Conn := { connW with sending_window := [], connected := true }

/-- Witness for C6: the concrete SYNACK with `ack = 6 = 5 + 1` removes the
single window entry, cancels its timer and connects. -/
theorem C6_witness :
    receive_packet Cx connW synackP = some (connW2, [Output.cancelTimer 5])
    ∧ connW2.connected = true := by
  obtain ⟨c2, h1, h2, h3⟩ :=
    (C6_synack_handshake Cx connW synackP rfl rfl rfl (by decide) (by decide)).2.2
      5 schedSyn [] rfl rfl
  have he : receive_packet Cx connW synackP = some (connW2, [Output.cancelTimer 5]) := by decide
  have hc2 : c2 = connW2 := by
    have h4 := h1.symm.trans he
    simpa using h4
  exact ⟨he, hc2 ▸ h2⟩

/-! ### C2: retirement of acknowledged packets (code bug) -/

/-- C2 (code bug): `connW` has exactly one in-flight packet, seqnum 5, and
`_next_sequence_number = 5` (5 was the last issued seqnum).  The cumulative
ack 6 acknowledges packet 5 and, per the spec, retiring should remove every
entry with seqnum `< min(6, 5 + 1) = 6`, i.e. retire packet 5 and attempt to
enable the looping sender.  The code instead clamps to
`min(6, _next_sequence_number) = 5` and `range(5, 5)` removes nothing: the
state is returned unchanged, no timer is cancelled, and the looping sender is
not touched.  (Second conjunct: the same ack 6 does retire packet 5 once a
further packet 6 has been issued, confirming the clamp is off by one.) -/
theorem C2_retire_clamp_off_by_one :
    retire_packets_with_seqnum_up_to Cx connW 6 = some (connW, [])
    ∧ (retire_packets_with_seqnum_up_to Cx
        { connW with
          next_sequence_number := 6
          sending_window := connW.sending_window ++
            [(6, { schedSyn with rudp_packet := mkPacket 6 addrB addrA ['x'] 0 0 false false })] }
        6).map (fun r => (keysW r.1.sending_window, r.2))
      = some ([6], [Output.cancelTimer 5]) := by
  constructor
  · decide
  · decide

/-! ### C1: shutdown is not idempotent -/

/-- Recognizer for datagram outputs. -/
def isDatagram : Output → Bool
  | .datagram _ _ => true
  | _ => false

theorem filter_isDatagram_cancels (l : List (Nat × ScheduledPacket)) :
    ((l.map (fun kv => Output.cancelTimer kv.1)).filter isDatagram) = [] := by
  induction l with
  | nil => rfl
  | cons kv rest ih => simpa [isDatagram] using ih

theorem count_handleShutdown_cancels (l : List (Nat × ScheduledPacket)) :
    ((l.map (fun kv => Output.cancelTimer kv.1)).count Output.handleShutdown) = 0 := by
  induction l with
  | nil => rfl
  | cons kv rest ih => simpa [List.count_cons] using ih

/-- Per-call effects of `shutdown`: one FIN, one handler notification,
loops stopped, window cleared. -/
theorem shutdown_effects (c : Conn) :
    (shutdown c).2.filter isDatagram
      = [Output.datagram (finPacketOf c) c.relay_addr]
    ∧ (shutdown c).2.count Output.handleShutdown = 1
    ∧ (shutdown c).1.connected = false
    ∧ (shutdown c).1.looping_send = false
    ∧ (shutdown c).1.looping_ack = false
    ∧ (shutdown c).1.looping_receive = false
    ∧ (shutdown c).1.sending_window = [] := by
  unfold shutdown send_fin schedule_send_out_of_order clear_sending_window
  refine ⟨?_, ?_, rfl, rfl, rfl, rfl, rfl⟩
  · simp [List.filter_append, filter_isDatagram_cancels, isDatagram, finPacketOf]
  · simp [List.count_append, count_handleShutdown_cancels, List.count_cons]

/-- C1 (amended): every single `shutdown()` call emits exactly one datagram,
namely one FIN, and notifies the handler exactly once; it leaves the
connection disconnected with all three looping calls stopped and the window
empty.  Because the source has no reentrancy guard, these effects repeat on
every call: shutdown is not idempotent. -/
theorem C1_shutdown_each_call_effects (c : Conn) :
    (shutdown c).2.filter isDatagram
      = [Output.datagram (finPacketOf c) c.relay_addr]
    ∧ (shutdown c).2.count Output.handleShutdown = 1
    ∧ (shutdown c).1.connected = false
    ∧ (shutdown c).1.looping_send = false
    ∧ (shutdown c).1.looping_ack = false
    ∧ (shutdown c).1.looping_receive = false
    ∧ (shutdown c).1.sending_window = [] :=
  shutdown_effects c

/-- C1 counterexample: after one `shutdown()` of the fresh connection
`connA`, a second `shutdown()` call emits a further datagram (a second FIN)
and invokes `handle_shutdown` again, so the set of emitted datagrams and the
number of handler notifications do not stay unchanged. -/
theorem C1_second_shutdown_not_silent :
    (shutdown (shutdown connA).1).2.filter isDatagram ≠ []
    ∧ (shutdown (shutdown connA).1).2.count Output.handleShutdown = 1 := by
  constructor
  · decide
  · decide

/-! ### Effect lemmas for the remaining operations -/

theorem reset_ack_eq (c : Conn) :
    reset_ack_timeout c = c ∨ reset_ack_timeout c = { c with looping_ack := false } := by
  unfold reset_ack_timeout
  split
  · split
    · exact Or.inl rfl
    · exact Or.inr rfl
  · exact Or.inl rfl

theorem reset_ack_window (c : Conn) :
    (reset_ack_timeout c).sending_window = c.sending_window := by
  rcases reset_ack_eq c with h | h <;> rw [h]

theorem shutdown_fst (c : Conn) :
    (shutdown c).1 = { c with
      connected := false,
      sending_window := [],
      looping_send := false,
      looping_ack := false,
      looping_receive := false } := rfl

theorem send_syn_eq (C : Consts) (c : Conn) :
    send_syn C c = { c with
      sending_window := insertW c.next_sequence_number
        ({ rudp_packet := synPacketOf c, timeout := C.PACKET_TIMEOUT,
           timeout_cb := true, retries := 0 }) c.sending_window } := rfl

theorem pop_received_fields (c : Conn) :
    (pop_received_packet c).1.sending_window = c.sending_window
    ∧ (pop_received_packet c).1.next_sequence_number = c.next_sequence_number
    ∧ (pop_received_packet c).1.connected = c.connected
    ∧ (pop_received_packet c).1.looping_send = c.looping_send
    ∧ (pop_received_packet c).1.syn_handle = c.syn_handle
    ∧ (pop_received_packet c).1.segment_queue = c.segment_queue
    ∧ ((pop_received_packet c).1.looping_ack = true → c.looping_ack = true) := by
  unfold pop_received_packet
  split
  · unfold attempt_disabling_looping_receive
    split <;> exact ⟨rfl, rfl, rfl, rfl, rfl, rfl, fun h => h⟩
  · dsimp only
    split
    · rcases reset_ack_eq { c with
          receive_heap := _, next_expected_seqnum := _ } with hr | hr <;> rw [hr]
      · exact ⟨rfl, rfl, rfl, rfl, rfl, rfl, fun h => h⟩
      · exact ⟨rfl, rfl, rfl, rfl, rfl, rfl, fun h => by simp at h⟩
    · exact ⟨rfl, rfl, rfl, rfl, rfl, rfl, fun h => h⟩

theorem attempt_enabling_spec (C : Consts) (c : Conn) (c2 : Conn) (os : List Output)
    (h : attempt_enabling_looping_send C c = some (c2, os)) :
    os = [] ∧
    (c2 = c ∨
      ∃ mf msg qrest,
        c.segment_queue = (mf, msg) :: qrest
        ∧ c.connected = true ∧ c.looping_send = false
        ∧ c.sending_window.length < C.WINDOW_SIZE
        ∧ c2 = attempt_disabling_looping_send C
            { c with
              looping_send := true
              segment_queue := qrest
              next_sequence_number := c.next_sequence_number + 1
              sending_window := insertW (c.next_sequence_number + 1)
                ({ rudp_packet := mkPacket (c.next_sequence_number + 1) c.dest_addr c.own_addr
                    msg mf c.next_expected_seqnum false false,
                   timeout := C.PACKET_TIMEOUT, timeout_cb := true, retries := 0 })
                c.sending_window }) := by
  by_cases hg : (c.connected = true ∧ c.looping_send = false ∧
      c.sending_window.length < C.WINDOW_SIZE ∧ c.segment_queue ≠ [])
  · obtain ⟨h1, h2, h3, h4⟩ := hg
    rcases hq : c.segment_queue with _ | ⟨⟨mf, msg⟩, qrest⟩
    · exact absurd hq h4
    · rw [attempt_enabling_guard C c mf msg qrest h1 h2 h3 hq] at h
      simp only [Option.some.injEq, Prod.mk.injEq] at h
      obtain ⟨rfl, rfl⟩ := h
      exact ⟨rfl, Or.inr ⟨mf, msg, qrest, rfl, h1, h2, h3, rfl⟩⟩
  · rw [attempt_enabling_not_guard C c hg] at h
    simp only [Option.some.injEq, Prod.mk.injEq] at h
    obtain ⟨rfl, rfl⟩ := h
    exact ⟨rfl, Or.inl rfl⟩

theorem do_send_spec (C : Consts) (c : Conn) (seqnum : Nat) (sch : ScheduledPacket)
    (hl : lookupW seqnum c.sending_window = some sch) :
    (C.MAX_RETRANSMISSIONS ≤ sch.retries ∧ do_send_packet C c seqnum = some (shutdown c))
    ∨ (sch.retries < C.MAX_RETRANSMISSIONS ∧
        do_send_packet C c seqnum = some
          (reset_ack_timeout { c with
            sending_window := insertW seqnum
              ({ sch with timeout_cb := true, retries := sch.retries + 1 }) c.sending_window },
           [Output.datagram sch.rudp_packet c.relay_addr])) := by
  unfold do_send_packet
  simp only [hl]
  by_cases hr : C.MAX_RETRANSMISSIONS ≤ sch.retries
  · rw [if_pos hr]
    exact Or.inl ⟨hr, rfl⟩
  · rw [if_neg hr]
    exact Or.inr ⟨by omega, rfl⟩

theorem retire_spec (C : Consts) (c : Conn) (acknum : Nat) (c2 : Conn) (os : List Output)
    (h : retire_packets_with_seqnum_up_to C c acknum = some (c2, os)) :
    ∃ w2, w2.Sublist c.sending_window
      ∧ (c.next_sequence_number ∈ keysW c.sending_window →
          c.next_sequence_number ∈ keysW w2)
      ∧ ((∃ os2, attempt_enabling_looping_send C { c with sending_window := w2 }
            = some (c2, os2))
         ∨ c2 = { c with sending_window := w2 }) := by
  unfold retire_packets_with_seqnum_up_to at h
  split at h
  · next hwin =>
    simp only [Option.some.injEq, Prod.mk.injEq] at h
    obtain ⟨rfl, rfl⟩ := h
    exact ⟨c.sending_window, List.Sublist.refl _, fun hm => hm, Or.inr rfl⟩
  · next lowest sch rest hwin =>
    dsimp only at h
    split at h
    · exact Option.noConfusion h
    · next r hloop =>
      obtain ⟨w2, os1⟩ := r
      refine ⟨w2, retireLoop_sublist _ _ _ _ hloop, ?_, ?_⟩
      · intro hm
        apply retireLoop_keys_mem _ _ _ _ hloop _ _ hm
        intro hmem
        rw [List.mem_range'] at hmem
        omega
      · split at h
        · simp only [Option.map_eq_some'] at h
          obtain ⟨rx, hr, hr2⟩ := h
          obtain ⟨c2x, os2x⟩ := rx
          simp only [Prod.mk.injEq] at hr2
          exact Or.inl ⟨os2x, by rw [hr, hr2.1]⟩
        · simp only [Option.some.injEq, Prod.mk.injEq] at h
          exact Or.inr h.1.symm

theorem process_casual_spec (C : Consts) (c : Conn) (p : RUDPPacket) (c2 : Conn)
    (os : List Output) (h : process_casual_packet C c p = some (c2, os)) :
    ∃ c1 : Conn,
      (retire_packets_with_seqnum_up_to C c p.ack = some (c1, os) ∨ (c1 = c ∧ os = []))
      ∧ c2.sending_window = c1.sending_window
      ∧ c2.next_sequence_number = c1.next_sequence_number
      ∧ c2.connected = c1.connected
      ∧ c2.looping_send = c1.looping_send
      ∧ c2.syn_handle = c1.syn_handle
      ∧ c2.segment_queue = c1.segment_queue
      ∧ (c2.looping_ack = true → c1.looping_ack = true) := by
  unfold process_casual_packet at h
  have hmain : ∀ c1 : Conn, ∀ os1 : List Output,
      (if 0 < p.sequence_number then
        (if p.sequence_number = ({ c1 with receive_heap := heapPush c1.receive_heap p } : Conn).next_expected_seqnum then
          some (attempt_enabling_looping_receive (reset_ack_timeout
            ({ ({ c1 with receive_heap := heapPush c1.receive_heap p } : Conn) with
              next_expected_seqnum := ({ c1 with receive_heap := heapPush c1.receive_heap p } : Conn).next_expected_seqnum + 1 })), os1)
        else some (({ c1 with receive_heap := heapPush c1.receive_heap p } : Conn), os1))
      else some (c1, os1)) = some (c2, os) →
      os = os1
      ∧ c2.sending_window = c1.sending_window
      ∧ c2.next_sequence_number = c1.next_sequence_number
      ∧ c2.connected = c1.connected
      ∧ c2.looping_send = c1.looping_send
      ∧ c2.syn_handle = c1.syn_handle
      ∧ c2.segment_queue = c1.segment_queue
      ∧ (c2.looping_ack = true → c1.looping_ack = true) := by
    intro c1 os1 hx
    split at hx
    · split at hx
      · simp only [Option.some.injEq, Prod.mk.injEq] at hx
        obtain ⟨hx1, rfl⟩ := hx
        subst hx1
        unfold attempt_enabling_looping_receive
        rcases reset_ack_eq ({ c1 with
            receive_heap := heapPush c1.receive_heap p,
            next_expected_seqnum := c1.next_expected_seqnum + 1 }) with hr | hr <;>
          rw [hr] <;> split <;>
          exact ⟨rfl, rfl, rfl, rfl, rfl, rfl, rfl, fun hh => by first | exact hh | simp at hh⟩
      · simp only [Option.some.injEq, Prod.mk.injEq] at hx
        obtain ⟨hx1, rfl⟩ := hx
        subst hx1
        exact ⟨rfl, rfl, rfl, rfl, rfl, rfl, rfl, fun hh => hh⟩
    · simp only [Option.some.injEq, Prod.mk.injEq] at hx
      obtain ⟨hx1, rfl⟩ := hx
      subst hx1
      exact ⟨rfl, rfl, rfl, rfl, rfl, rfl, rfl, fun hh => hh⟩
  split at h
  · -- retire branch taken
    rcases hret : retire_packets_with_seqnum_up_to C c p.ack with _ | ⟨c1, os1⟩
    · rw [hret] at h
      exact Option.noConfusion h
    · rw [hret] at h
      obtain ⟨ho, hrest⟩ := hmain c1 os1 h
      subst ho
      exact ⟨c1, Or.inl rfl, hrest⟩
  · obtain ⟨ho, hrest⟩ := hmain c [] h
    exact ⟨c, Or.inr ⟨rfl, ho⟩, hrest⟩

/-! ### C3: sequence number discipline -/

theorem step_next_monotone (C : Consts) (c : Conn) (e : Event) (c2 : Conn) (os : List Output)
    (h : step C c e = some (c2, os)) :
    c.next_sequence_number ≤ c2.next_sequence_number := by
  cases e with
  | sendMessage m =>
    simp only [step] at h
    unfold send_message at h
    obtain ⟨-, hcase⟩ := attempt_enabling_spec C _ _ _ h
    rcases hcase with rfl | ⟨mf, msg, qrest, hq, h1, h2, h3, rfl⟩
    · exact Nat.le_refl _
    · rcases attempt_disabling_eq C _ with hd | hd <;> rw [hd] <;> exact Nat.le_succ _
  | recvPacket p =>
    simp only [step] at h
    unfold receive_packet at h
    split at h
    · split at h
      · simp only [Option.some.injEq] at h
        have hc2 : c2 = (process_fin_packet c p).1 := by rw [h]
        subst hc2
        exact Nat.le_refl _
      · simp only [Option.some.injEq, Prod.mk.injEq] at h
        obtain ⟨rfl, -⟩ := h
        exact Nat.le_refl _
    · split at h
      · split at h
        · unfold process_syn_packet at h
          split at h
          · split at h
            · simp only [Option.some.injEq, Prod.mk.injEq] at h
              obtain ⟨rfl, -⟩ := h
              exact Nat.le_refl _
            · split at h
              · simp only [Option.map_eq_some'] at h
                obtain ⟨r, hr, hr2⟩ := h
                obtain ⟨rc, ros⟩ := r
                simp only [Prod.mk.injEq] at hr2
                obtain ⟨rfl, -⟩ := hr2
                obtain ⟨-, hcase⟩ := attempt_enabling_spec C _ _ _ hr
                rcases hcase with rfl | ⟨mf, msg, qrest, hq, h1, h2, h3, rfl⟩
                · exact Nat.le_refl _
                · rcases attempt_disabling_eq C _ with hd | hd <;> rw [hd] <;>
                    exact Nat.le_succ _
              · simp only [Option.some.injEq, Prod.mk.injEq] at h
                obtain ⟨rfl, -⟩ := h
                exact Nat.le_refl _
          · dsimp only at h
            split at h <;>
            · simp only [Option.some.injEq, Prod.mk.injEq] at h
              obtain ⟨rfl, -⟩ := h
              exact Nat.le_refl _
        · simp only [Option.some.injEq, Prod.mk.injEq] at h
          obtain ⟨rfl, -⟩ := h
          exact Nat.le_refl _
      · split at h
        · obtain ⟨c1, hret, -, hnext, -⟩ := process_casual_spec C c p c2 os h
          have hle : c.next_sequence_number ≤ c1.next_sequence_number := by
            rcases hret with hret | ⟨rfl, -⟩
            · obtain ⟨w2, -, -, hcase⟩ := retire_spec C c p.ack c1 os hret
              rcases hcase with ⟨os2, hen⟩ | rfl
              · obtain ⟨-, hcase2⟩ := attempt_enabling_spec C _ _ _ hen
                rcases hcase2 with rfl | ⟨mf, msg, qrest, hq, h1, h2, h3, rfl⟩
                · exact Nat.le_refl _
                · rcases attempt_disabling_eq C _ with hd | hd <;> rw [hd] <;>
                    exact Nat.le_succ _
              · exact Nat.le_refl _
            · exact Nat.le_refl _
          rw [hnext]
          exact hle
        · simp only [Option.some.injEq, Prod.mk.injEq] at h
          obtain ⟨rfl, -⟩ := h
          exact Nat.le_refl _
  | shutdownCall =>
    simp only [step, Option.some.injEq] at h
    have hc2 : c2 = (shutdown c).1 := by rw [h]
    subst hc2
    exact Nat.le_refl _
  | synTimeout =>
    simp only [step] at h
    split at h
    · simp only [Option.some.injEq, Prod.mk.injEq] at h
      obtain ⟨rfl, -⟩ := h
      exact Nat.le_refl _
    · exact Option.noConfusion h
  | packetTimeout seq =>
    simp only [step] at h
    split at h
    · exact Option.noConfusion h
    · next sch hl =>
      split at h
      · have hlM : lookupW seq (markTimerFired seq c.sending_window)
            = some ({ sch with timeout_cb := false }) := by
          rw [lookupW_markTimerFired_self, hl]
          rfl
        rcases do_send_spec C { c with sending_window := markTimerFired seq c.sending_window }
            seq ({ sch with timeout_cb := false }) hlM with ⟨-, heq⟩ | ⟨-, heq⟩ <;>
          rw [heq] at h <;> simp only [Option.some.injEq] at h
        · have hc2 : c2 = (shutdown { c with
              sending_window := markTimerFired seq c.sending_window }).1 := by rw [h]
          subst hc2
          exact Nat.le_refl _
        · have hc2 : c2 = (reset_ack_timeout { c with
              sending_window := insertW seq
                ({ ({ sch with timeout_cb := false } : ScheduledPacket) with
                  timeout_cb := true,
                  retries := ({ sch with timeout_cb := false } : ScheduledPacket).retries + 1 })
                (markTimerFired seq c.sending_window) }, [Output.datagram
                  ({ sch with timeout_cb := false } : ScheduledPacket).rudp_packet
                  c.relay_addr]).1 := by rw [h]
          subst hc2
          rcases reset_ack_eq { c with
              sending_window := insertW seq
                ({ ({ sch with timeout_cb := false } : ScheduledPacket) with
                  timeout_cb := true,
                  retries := ({ sch with timeout_cb := false } : ScheduledPacket).retries + 1 })
                (markTimerFired seq c.sending_window) } with hr | hr <;> rw [hr]
      · exact Option.noConfusion h
  | tickSend =>
    simp only [step] at h
    split at h
    · unfold dequeue_outbound_message at h
      split at h
      · exact Option.noConfusion h
      · simp only [Option.some.injEq, Prod.mk.injEq] at h
        obtain ⟨h1, -⟩ := h
        subst h1
        rcases attempt_disabling_eq C _ with hd | hd <;> rw [hd] <;> exact Nat.le_succ _
    · exact Option.noConfusion h
  | tickAck =>
    simp only [step] at h
    split at h
    · simp only [Option.some.injEq, Prod.mk.injEq, send_ack] at h
      obtain ⟨h1, -⟩ := h
      subst h1
      rcases reset_ack_eq c with hr | hr <;> rw [hr]
    · exact Option.noConfusion h
  | tickReceive =>
    simp only [step] at h
    split at h
    · simp only [Option.some.injEq] at h
      have hc2 : c2 = (pop_received_packet c).1 := by rw [h]
      subst hc2
      rw [(pop_received_fields c).2.1]
    · exact Option.noConfusion h

theorem tickSend_issues (C : Consts) (c : Conn) (c2 : Conn) (os : List Output)
    (h : step C c Event.tickSend = some (c2, os)) :
    c2.next_sequence_number = c.next_sequence_number + 1
    ∧ ∃ sch, lookupW (c.next_sequence_number + 1) c2.sending_window = some sch
        ∧ sch.rudp_packet.sequence_number = c.next_sequence_number + 1
        ∧ sch.retries = 0 ∧ sch.timeout_cb = true
        ∧ sch.rudp_packet.syn = false ∧ sch.rudp_packet.fin = false := by
  simp only [step] at h
  split at h
  · unfold dequeue_outbound_message at h
    split at h
    · exact Option.noConfusion h
    · simp only [Option.some.injEq, Prod.mk.injEq] at h
      obtain ⟨h1, -⟩ := h
      subst h1
      rcases attempt_disabling_eq C _ with hd | hd <;> rw [hd] <;>
        exact ⟨rfl, _, lookupW_insertW_self _ _ _, rfl, rfl, rfl, rfl, rfl⟩
  · exact Option.noConfusion h

theorem retransmit_emits_stored (C : Consts) (c : Conn) (seq : Nat) (sch : ScheduledPacket)
    (c2 : Conn) (os : List Output)
    (hl : lookupW seq c.sending_window = some sch) (htb : sch.timeout_cb = true)
    (hr : sch.retries < C.MAX_RETRANSMISSIONS)
    (h : step C c (Event.packetTimeout seq) = some (c2, os)) :
    os = [Output.datagram sch.rudp_packet c.relay_addr]
    ∧ c2.next_sequence_number = c.next_sequence_number := by
  simp only [step, hl] at h
  rw [if_pos htb] at h
  have hlM : lookupW seq (markTimerFired seq c.sending_window)
      = some ({ sch with timeout_cb := false }) := by
    rw [lookupW_markTimerFired_self, hl]
    rfl
  rcases do_send_spec C { c with sending_window := markTimerFired seq c.sending_window }
      seq ({ sch with timeout_cb := false }) hlM with ⟨hge, -⟩ | ⟨-, heq⟩
  · exact absurd hge (by simp; omega)
  · rw [heq] at h
    simp only [Option.some.injEq, Prod.mk.injEq] at h
    obtain ⟨h1, rfl⟩ := h
    refine ⟨rfl, ?_⟩
    subst h1
    rcases reset_ack_eq { c with
        sending_window := insertW seq
          ({ ({ sch with timeout_cb := false } : ScheduledPacket) with
            timeout_cb := true,
            retries := ({ sch with timeout_cb := false } : ScheduledPacket).retries + 1 })
          (markTimerFired seq c.sending_window) } with hrr | hrr <;> rw [hrr]

/-- C3 (amended): the claim as stated fails because retransmissions reuse
the sequence number of the stored packet; what does hold is the discipline
on *assigned* sequence numbers: `_next_sequence_number` never decreases
under any event, each looping-send tick assigns exactly
`_next_sequence_number + 1` (the pre-incrementing getter) to the packet it
schedules, and a retransmission timeout with remaining budget emits exactly
the stored datagram, minting no new sequence number. -/
theorem C3_seqnum_discipline_amended (C : Consts) (c : Conn) :
    (∀ e c2 os, step C c e = some (c2, os) →
        c.next_sequence_number ≤ c2.next_sequence_number)
    ∧ (∀ c2 os, step C c Event.tickSend = some (c2, os) →
        c2.next_sequence_number = c.next_sequence_number + 1
        ∧ ∃ sch, lookupW (c.next_sequence_number + 1) c2.sending_window = some sch
            ∧ sch.rudp_packet.sequence_number = c.next_sequence_number + 1
            ∧ sch.retries = 0)
    ∧ (∀ seq sch c2 os, lookupW seq c.sending_window = some sch → sch.timeout_cb = true →
        sch.retries < C.MAX_RETRANSMISSIONS →
        step C c (Event.packetTimeout seq) = some (c2, os) →
        os = [Output.datagram sch.rudp_packet c.relay_addr]
        ∧ c2.next_sequence_number = c.next_sequence_number) := by
  refine ⟨fun e c2 os h => step_next_monotone C c e c2 os h, ?_, ?_⟩
  · intro c2 os h
    obtain ⟨h1, sch, h2, h3, h4, -⟩ := tickSend_issues C c c2 os h
    exact ⟨h1, sch, h2, h3, h4⟩
  · intro seq sch c2 os hl htb hr h
    exact retransmit_emits_stored C c seq sch c2 os hl htb hr h

/-- Sequence numbers of the datagrams in an output list. -/
def outSeqs (os : List Output) : List Nat :=
  os.filterMap (fun o => match o with
    | Output.datagram p _ => some p.sequence_number
    | _ => none)

/-- C3 counterexample: on the fresh connection `connA`, letting the SYN
one-shot fire and then firing the scheduled packet's retransmission timer
twice emits two datagrams with the *same* nonzero sequence number 5: the
later of two outbound non-zero-seqnum emissions does not carry a strictly
greater sequence number, refuting the claim for emissions counted with
retransmissions. -/
theorem C3_retransmission_counterexample :
    (run Cx connA [Event.synTimeout, Event.packetTimeout 5, Event.packetTimeout 5]).map
      (fun r => outSeqs r.2) = some [5, 5]
    ∧ ¬(5 : Nat) < 5 := by
  constructor
  · decide
  · decide

/-- Witness for C3 (amended): a concrete enabled step (a public shutdown
call on `connA`) under the monotonicity part of the theorem. -/
theorem C3_witness :
    connA.next_sequence_number ≤ (shutdown connA).1.next_sequence_number :=
  (C3_seqnum_discipline_amended Cx connA).1 Event.shutdownCall
    (shutdown connA).1 (shutdown connA).2 (by decide)

/-! ### C7: the retransmission budget -/

theorem run_append (C : Consts) (c : Conn) (es1 es2 : List Event) :
    run C c (es1 ++ es2) =
      match run C c es1 with
      | none => none
      | some r => (run C r.1 es2).map (fun r2 => (r2.1, r.2 ++ r2.2)) := by
  induction es1 generalizing c with
  | nil =>
    simp only [List.nil_append, run]
    rcases run C c es2 with _ | r2
    · rfl
    · simp
  | cons e es1 ih =>
    have hrunc : ∀ (l : List Event), run C c (e :: l) =
        match step C c e with
        | none => none
        | some r => (run C r.1 l).map (fun r2 : Conn × List Output => (r2.1, r.2 ++ r2.2)) :=
      fun l => rfl
    rw [List.cons_append, hrunc (es1 ++ es2), hrunc es1]
    rcases step C c e with _ | r
    · rfl
    · dsimp only
      rw [ih r.1]
      rcases run C r.1 es1 with _ | r1
      · rfl
      · simp only [Option.map_some']
        rcases run C r1.1 es2 with _ | r2
        · rfl
        · simp [List.append_assoc]

theorem count_datagram_cancels (l : List (Nat × ScheduledPacket)) (P : RUDPPacket) (R : Address) :
    ((l.map (fun kv => Output.cancelTimer kv.1)).count (Output.datagram P R)) = 0 := by
  induction l with
  | nil => rfl
  | cons kv rest ih => simpa [List.count_cons] using ih

theorem count_datagram_shutdown_zero (c' : Conn) (P : RUDPPacket) (R : Address)
    (hfin : P.fin = false) :
    (shutdown c').2.count (Output.datagram P R) = 0 := by
  unfold shutdown send_fin schedule_send_out_of_order clear_sending_window
  rw [List.count_eq_zero]
  intro hmem
  simp only [List.mem_append, List.mem_singleton, List.mem_map] at hmem
  rcases hmem with (hmem | hmem) | hmem
  · have hfin2 := congrArg (fun o => match o with
      | Output.datagram q _ => q.fin
      | _ => true) hmem
    simp only [finPacketOf, mkPacket] at hfin2
    rw [hfin] at hfin2
    exact Bool.noConfusion hfin2
  · obtain ⟨kv, -, hkv⟩ := hmem
    exact Output.noConfusion hkv
  · exact Output.noConfusion hmem

theorem iterate_timeouts (C : Consts) (seq : Nat) (P : RUDPPacket) (t : Nat) (k : Nat) :
    ∀ (c : Conn) (r : Nat),
      c.sending_window
        = [(seq, { rudp_packet := P, timeout := t, timeout_cb := true, retries := r })] →
      r + k ≤ C.MAX_RETRANSMISSIONS →
      ∃ ck, run C c (List.replicate k (Event.packetTimeout seq))
          = some (ck, List.replicate k (Output.datagram P c.relay_addr))
        ∧ ck.sending_window
            = [(seq, { rudp_packet := P, timeout := t, timeout_cb := true, retries := r + k })]
        ∧ ck.relay_addr = c.relay_addr := by
  induction k with
  | zero =>
    intro c r hwin hbound
    exact ⟨c, by simp [run], by simpa using hwin, rfl⟩
  | succ k ih =>
    intro c r hwin hbound
    have hmark : markTimerFired seq c.sending_window
        = [(seq, { rudp_packet := P, timeout := t, timeout_cb := false, retries := r })] := by
      rw [hwin]
      simp [markTimerFired]
    have hlook : lookupW seq c.sending_window
        = some ({ rudp_packet := P, timeout := t, timeout_cb := true, retries := r }) := by
      rw [hwin]
      simp [lookupW]
    have hlM : lookupW seq (markTimerFired seq c.sending_window)
        = some ({ rudp_packet := P, timeout := t, timeout_cb := false, retries := r }) := by
      rw [hmark]
      simp [lookupW]
    have hstep : step C c (Event.packetTimeout seq) = some
        (reset_ack_timeout { c with
          sending_window := [(seq,
            { rudp_packet := P, timeout := t, timeout_cb := true, retries := r + 1 })] },
         [Output.datagram P c.relay_addr]) := by
      rcases do_send_spec C { c with sending_window := markTimerFired seq c.sending_window }
          seq ({ rudp_packet := P, timeout := t, timeout_cb := false, retries := r })
          hlM with ⟨hge, -⟩ | ⟨-, heq⟩
      · exact absurd hge (by simp; omega)
      · simp only [step, hlook]
        rw [heq]
        simp [hmark, insertW]
    have hbody : ∀ c1 : Conn,
        c1.sending_window
          = [(seq, { rudp_packet := P, timeout := t, timeout_cb := true, retries := r + 1 })] →
        c1.relay_addr = c.relay_addr →
        step C c (Event.packetTimeout seq) = some (c1, [Output.datagram P c.relay_addr]) →
        ∃ ck, run C c (List.replicate (k + 1) (Event.packetTimeout seq))
            = some (ck, List.replicate (k + 1) (Output.datagram P c.relay_addr))
          ∧ ck.sending_window
              = [(seq, { rudp_packet := P, timeout := t, timeout_cb := true, retries := r + (k + 1) })]
          ∧ ck.relay_addr = c.relay_addr := by
      intro c1 hw1 hrel1 hstep1
      obtain ⟨ck, hrun, hw, hrel⟩ := ih c1 (r + 1) hw1 (by omega)
      refine ⟨ck, ?_, by simpa [Nat.add_assoc, Nat.add_comm, Nat.add_left_comm] using hw,
        hrel.trans hrel1⟩
      have hrc : run C c (Event.packetTimeout seq :: List.replicate k (Event.packetTimeout seq))
          = match step C c (Event.packetTimeout seq) with
            | none => none
            | some r0 => (run C r0.1 (List.replicate k (Event.packetTimeout seq))).map
                (fun r2 : Conn × List Output => (r2.1, r0.2 ++ r2.2)) := rfl
      rw [List.replicate_succ, hrc, hstep1]
      dsimp only
      rw [hrun, hrel1]
      simp [List.replicate_succ]
    rcases reset_ack_eq { c with sending_window := [(seq,
        { rudp_packet := P, timeout := t, timeout_cb := true, retries := r + 1 })] } with hr | hr <;>
      rw [hr] at hstep
    · exact hbody { c with sending_window := [(seq,
        { rudp_packet := P, timeout := t, timeout_cb := true, retries := r + 1 })] } rfl rfl hstep
    · exact hbody { c with
        sending_window := [(seq,
          { rudp_packet := P, timeout := t, timeout_cb := true, retries := r + 1 })],
        looping_ack := false } rfl rfl hstep

/-- C7: the retransmission budget.  Per call: `_do_send_packet` on an entry
with `retries ≥ MAX_RETRANSMISSIONS` invokes `shutdown()` (window cleared,
disconnected, handler notified once) and does not transmit the entry's
datagram; on an entry with remaining budget it transmits exactly the stored
datagram, re-arms the entry timer and increments `retries` by exactly one.
Consequently a send-window entry starting at `retries = 0` is transmitted
exactly `min k MAX_RETRANSMISSIONS` times over any feasible sequence of `k`
timer firings: at most `MAX_RETRANSMISSIONS` transmissions occur before
shutdown. -/
theorem C7_retransmission_budget (C : Consts) (c : Conn) :
    (∀ seq sch c2 os, lookupW seq c.sending_window = some sch → sch.timeout_cb = true →
        sch.rudp_packet.fin = false →
        C.MAX_RETRANSMISSIONS ≤ sch.retries →
        step C c (Event.packetTimeout seq) = some (c2, os) →
        c2.sending_window = [] ∧ c2.connected = false
        ∧ os.count (Output.datagram sch.rudp_packet c.relay_addr) = 0
        ∧ os.count Output.handleShutdown = 1)
    ∧ (∀ seq sch c2 os, lookupW seq c.sending_window = some sch → sch.timeout_cb = true →
        sch.retries < C.MAX_RETRANSMISSIONS →
        step C c (Event.packetTimeout seq) = some (c2, os) →
        os = [Output.datagram sch.rudp_packet c.relay_addr]
        ∧ lookupW seq c2.sending_window
            = some ({ sch with timeout_cb := true, retries := sch.retries + 1 }))
    ∧ (∀ seq P t, c.sending_window
          = [(seq, { rudp_packet := P, timeout := t, timeout_cb := true, retries := 0 })] →
        P.fin = false →
        ∀ k, k ≤ C.MAX_RETRANSMISSIONS + 1 →
        ∃ ck osk, run C c (List.replicate k (Event.packetTimeout seq)) = some (ck, osk)
          ∧ osk.count (Output.datagram P c.relay_addr) = min k C.MAX_RETRANSMISSIONS) := by
  refine ⟨?_, ?_, ?_⟩
  · intro seq sch c2 os hl htb hfin hge h
    simp only [step, hl] at h
    rw [if_pos htb] at h
    have hlM : lookupW seq (markTimerFired seq c.sending_window)
        = some ({ sch with timeout_cb := false }) := by
      rw [lookupW_markTimerFired_self, hl]
      rfl
    rcases do_send_spec C { c with sending_window := markTimerFired seq c.sending_window }
        seq ({ sch with timeout_cb := false }) hlM with ⟨-, heq⟩ | ⟨hlt, -⟩
    · rw [heq] at h
      simp only [Option.some.injEq] at h
      have hc2 : c2 = (shutdown { c with
          sending_window := markTimerFired seq c.sending_window }).1 := by rw [h]
      have hos : os = (shutdown { c with
          sending_window := markTimerFired seq c.sending_window }).2 := by rw [h]
      subst hc2
      subst hos
      refine ⟨(shutdown_effects _).2.2.2.2.2.2, (shutdown_effects _).2.2.1, ?_,
        (shutdown_effects _).2.1⟩
      exact count_datagram_shutdown_zero _ _ _ hfin
    · exact absurd hlt (by simp; omega)
  · intro seq sch c2 os hl htb hlt h
    simp only [step, hl] at h
    rw [if_pos htb] at h
    have hlM : lookupW seq (markTimerFired seq c.sending_window)
        = some ({ sch with timeout_cb := false }) := by
      rw [lookupW_markTimerFired_self, hl]
      rfl
    rcases do_send_spec C { c with sending_window := markTimerFired seq c.sending_window }
        seq ({ sch with timeout_cb := false }) hlM with ⟨hge, -⟩ | ⟨-, heq⟩
    · exact absurd hge (by simp; omega)
    · rw [heq] at h
      simp only [Option.some.injEq, Prod.mk.injEq] at h
      obtain ⟨h1, rfl⟩ := h
      refine ⟨rfl, ?_⟩
      subst h1
      rw [reset_ack_window]
      exact lookupW_insertW_self _ _ _
  · intro seq P t hwin hfin k hk
    by_cases hcase : k ≤ C.MAX_RETRANSMISSIONS
    · obtain ⟨ck, hrun, -, -⟩ := iterate_timeouts C seq P t k c 0 hwin (by omega)
      refine ⟨ck, _, hrun, ?_⟩
      rw [List.count_replicate_self]
      omega
    · have hkeq : k = C.MAX_RETRANSMISSIONS + 1 := by omega
      subst hkeq
      obtain ⟨cM, hrunM, hwM, hrelM⟩ :=
        iterate_timeouts C seq P t C.MAX_RETRANSMISSIONS c 0 hwin (by omega)
      have hlook : lookupW seq cM.sending_window = some
          ({ rudp_packet := P, timeout := t, timeout_cb := true,
             retries := 0 + C.MAX_RETRANSMISSIONS }) := by
        rw [hwM]
        simp [lookupW]
      have hlM : lookupW seq (markTimerFired seq cM.sending_window) = some
          ({ rudp_packet := P, timeout := t, timeout_cb := false,
             retries := 0 + C.MAX_RETRANSMISSIONS }) := by
        rw [lookupW_markTimerFired_self, hlook]
        rfl
      rcases do_send_spec C { cM with sending_window := markTimerFired seq cM.sending_window }
          seq ({ rudp_packet := P, timeout := t, timeout_cb := false,
                 retries := 0 + C.MAX_RETRANSMISSIONS }) hlM with ⟨-, heq⟩ | ⟨hlt, -⟩
      · have hstepM : step C cM (Event.packetTimeout seq) = some
            (shutdown { cM with sending_window := markTimerFired seq cM.sending_window }) := by
          simp only [step, hlook]
          simpa using heq
        rw [List.replicate_succ', run_append, hrunM]
        dsimp only
        have hrone : run C cM [Event.packetTimeout seq] =
            (run C (shutdown { cM with
              sending_window := markTimerFired seq cM.sending_window }).1 []).map
              (fun r2 : Conn × List Output => (r2.1, (shutdown { cM with
                sending_window := markTimerFired seq cM.sending_window }).2 ++ r2.2)) := by
          show (match step C cM (Event.packetTimeout seq) with
            | none => none
            | some r => (run C r.1 []).map
                (fun r2 : Conn × List Output => (r2.1, r.2 ++ r2.2))) = _
          rw [hstepM]
        rw [hrone]
        simp only [run, Option.map_some']
        refine ⟨_, _, rfl, ?_⟩
        rw [List.append_nil, List.count_append, List.count_replicate_self,
          count_datagram_shutdown_zero _ _ _ hfin]
        omega
      · exact absurd hlt (by simp)

/-- Witness for C7: with `MAX_RETRANSMISSIONS = 2`, three firings of the
entry-5 timer of `connW` transmit the stored SYN exactly twice (the third
firing shuts the connection down). -/
theorem C7_witness :
    ((run Cx connW (List.replicate 3 (Event.packetTimeout 5))).map
      (fun r => r.2.count (Output.datagram schedSyn.rudp_packet connW.relay_addr))) = some 2 := by
  obtain ⟨ck, osk, hrun, hcount⟩ := (C7_retransmission_budget Cx connW).2.2
    5 (synPacketOf connA) 1 rfl rfl 3 (by decide)
  rw [hrun]
  simpa using hcount

/-! ### The master reachable-state invariant (C8, C9) -/

/-- Invariant of every reachable connection state, for constants `C` and
initial sequence number `n0`: the ack loop never runs (nothing in
`connection.py` ever starts it); the send-window keys are strictly
increasing, between `n0` and `_next_sequence_number`, each entry's packet
carries its key as sequence number, and `_next_sequence_number` itself is a
key whenever the window is nonempty; the window never exceeds
`WINDOW_SIZE`; and the looping sender runs only while connected, with a
nonempty segment queue and a non-full, nonempty window. -/
structure RInv (C : Consts) (n0 : Nat) (c : Conn) : Prop where
  ack_stopped : c.looping_ack = false
  keys_sorted : (keysW c.sending_window).Pairwise (· < ·)
  keys_le : ∀ k ∈ keysW c.sending_window, k ≤ c.next_sequence_number
  keys_ge : ∀ k ∈ keysW c.sending_window, n0 ≤ k
  pkt_seq : ∀ kv ∈ c.sending_window, kv.2.rudp_packet.sequence_number = kv.1
  top_mem : c.sending_window ≠ [] → c.next_sequence_number ∈ keysW c.sending_window
  n0_le : n0 ≤ c.next_sequence_number
  win_len : c.sending_window.length ≤ C.WINDOW_SIZE
  run_conn : c.looping_send = true → c.connected = true
  run_queue : c.looping_send = true → c.segment_queue ≠ []
  run_len : c.looping_send = true → c.sending_window.length < C.WINDOW_SIZE
  run_nonempty : c.looping_send = true → c.sending_window ≠ []

theorem RInv_init (C : Consts) (n0 : Nat) (own dest : Address) (relay : Option Address) :
    RInv C n0 (initConn n0 own dest relay) := by
  constructor <;> simp [initConn, keysW]

theorem keysW_append (w : List (Nat × ScheduledPacket)) (k : Nat) (e : ScheduledPacket) :
    keysW (w ++ [(k, e)]) = keysW w ++ [k] := by
  simp [keysW]

theorem pairwise_snoc (l : List Nat) (k : Nat) (h : l.Pairwise (· < ·))
    (hk : ∀ x ∈ l, x < k) : (l ++ [k]).Pairwise (· < ·) := by
  rw [List.pairwise_append]
  exact ⟨h, List.pairwise_singleton _ _, fun x hx y hy => by
    rw [List.mem_singleton] at hy
    subst hy
    exact hk x hx⟩

/-- After `_attempt_disabling_looping_send` the full invariant holds,
provided the state facts other than the looping-send side conditions hold
and the sender, if running, is connected with a nonempty window. -/
theorem RInv_of_disable (C : Consts) (n0 : Nat) (c : Conn)
    (hack : c.looping_ack = false)
    (hsort : (keysW c.sending_window).Pairwise (· < ·))
    (hle : ∀ k ∈ keysW c.sending_window, k ≤ c.next_sequence_number)
    (hge : ∀ k ∈ keysW c.sending_window, n0 ≤ k)
    (hpkt : ∀ kv ∈ c.sending_window, kv.2.rudp_packet.sequence_number = kv.1)
    (htop : c.sending_window ≠ [] → c.next_sequence_number ∈ keysW c.sending_window)
    (hn0 : n0 ≤ c.next_sequence_number)
    (hwl : c.sending_window.length ≤ C.WINDOW_SIZE)
    (hconn : c.looping_send = true → c.connected = true)
    (hne : c.looping_send = true → c.sending_window ≠ []) :
    RInv C n0 (attempt_disabling_looping_send C c) := by
  have hrun := attempt_disabling_run_iff C c
  rcases attempt_disabling_eq C c with hd | hd
  · rw [hd] at hrun ⊢
    exact { ack_stopped := hack, keys_sorted := hsort, keys_le := hle, keys_ge := hge,
            pkt_seq := hpkt, top_mem := htop, n0_le := hn0, win_len := hwl,
            run_conn := hconn,
            run_queue := fun h => (hrun.mp h).2.2,
            run_len := fun h => (hrun.mp h).2.1,
            run_nonempty := hne }
  · rw [hd] at hrun ⊢
    exact { ack_stopped := hack, keys_sorted := hsort, keys_le := hle, keys_ge := hge,
            pkt_seq := hpkt, top_mem := htop, n0_le := hn0, win_len := hwl,
            run_conn := fun h => by simp at h,
            run_queue := fun h => by simp at h,
            run_len := fun h => by simp at h,
            run_nonempty := fun h => by simp at h }

/-- `_attempt_enabling_looping_send` preserves the invariant (the immediate
dequeue tick appends one fresh entry above every existing key, then the
disabling check restores the looping-send side conditions) and emits no
output. -/
theorem RInv_enable (C : Consts) (n0 : Nat) (c c2 : Conn) (os : List Output)
    (hI : RInv C n0 c)
    (h : attempt_enabling_looping_send C c = some (c2, os)) :
    RInv C n0 c2 ∧ os = [] := by
  obtain ⟨hos, hcases⟩ := attempt_enabling_spec C c c2 os h
  subst hos
  refine ⟨?_, rfl⟩
  rcases hcases with rfl | ⟨mf, msg, qrest, hq, hcon, hrunf, hlen, rfl⟩
  · exact hI
  · have hfresh : c.next_sequence_number + 1 ∉ keysW c.sending_window := by
      intro hm
      have := hI.keys_le _ hm
      omega
    rw [insertW_of_not_mem _ _ _ hfresh]
    refine RInv_of_disable C n0 _ ?_ ?_ ?_ ?_ ?_ ?_ ?_ ?_ ?_ ?_
    · exact hI.ack_stopped
    · show ((keysW (c.sending_window ++ [_])).Pairwise (· < ·))
      rw [keysW_append]
      exact pairwise_snoc _ _ hI.keys_sorted (fun x hx => by
        have := hI.keys_le x hx
        omega)
    · intro k hk
      rw [keysW_append, List.mem_append, List.mem_singleton] at hk
      rcases hk with hk | rfl
      · exact (hI.keys_le k hk).trans (Nat.le_succ _)
      · exact Nat.le_refl _
    · intro k hk
      rw [keysW_append, List.mem_append, List.mem_singleton] at hk
      rcases hk with hk | rfl
      · exact hI.keys_ge k hk
      · exact hI.n0_le.trans (Nat.le_succ _)
    · intro kv hkv
      rw [List.mem_append, List.mem_singleton] at hkv
      rcases hkv with hkv | rfl
      · exact hI.pkt_seq kv hkv
      · rfl
    · intro _
      rw [keysW_append, List.mem_append, List.mem_singleton]
      exact Or.inr rfl
    · exact hI.n0_le.trans (Nat.le_succ _)
    · show (c.sending_window ++ [_]).length ≤ C.WINDOW_SIZE
      rw [List.length_append, List.length_singleton]
      omega
    · exact fun _ => hcon
    · exact fun _ => by simp

/-- The invariant only depends on the fields `connection.py` reads through
it, so it transports along field equalities (with the ack-loop flag only
needed monotonically). -/
theorem RInv_transport (C : Consts) (n0 : Nat) (c1 c2 : Conn) (hI : RInv C n0 c1)
    (hw : c2.sending_window = c1.sending_window)
    (hn : c2.next_sequence_number = c1.next_sequence_number)
    (hc : c2.connected = c1.connected)
    (hl : c2.looping_send = c1.looping_send)
    (hq : c1.segment_queue ≠ [] → c2.segment_queue ≠ [])
    (ha : c2.looping_ack = true → c1.looping_ack = true) : RInv C n0 c2 := by
  constructor
  · cases hb : c2.looping_ack
    · rfl
    · have := ha hb
      rw [hI.ack_stopped] at this
      exact this.symm
  · rw [hw]; exact hI.keys_sorted
  · rw [hw, hn]; exact hI.keys_le
  · rw [hw]; exact hI.keys_ge
  · rw [hw]; exact hI.pkt_seq
  · rw [hw, hn]; exact hI.top_mem
  · rw [hn]; exact hI.n0_le
  · rw [hw]; exact hI.win_len
  · rw [hl, hc]; exact hI.run_conn
  · intro h
    exact hq (hI.run_queue (by rw [← hl]; exact h))
  · rw [hl, hw]; exact hI.run_len
  · rw [hl, hw]; exact hI.run_nonempty

theorem RInv_reset_ack (C : Consts) (n0 : Nat) (c : Conn) (hI : RInv C n0 c) :
    RInv C n0 (reset_ack_timeout c) := by
  rcases reset_ack_eq c with hr | hr <;> rw [hr]
  · exact hI
  · exact RInv_transport C n0 c _ hI rfl rfl rfl rfl (fun h => h) (fun h => by simp at h)

theorem RInv_shutdown (C : Consts) (n0 : Nat) (c : Conn) (hI : RInv C n0 c) :
    RInv C n0 (shutdown c).1 := by
  rw [shutdown_fst]
  exact { ack_stopped := rfl,
          keys_sorted := by simp [keysW],
          keys_le := by simp [keysW],
          keys_ge := by simp [keysW],
          pkt_seq := by simp,
          top_mem := by simp,
          n0_le := hI.n0_le,
          win_len := by simp,
          run_conn := by simp,
          run_queue := by simp,
          run_len := by simp,
          run_nonempty := by simp }

theorem shutdown_datagram_fin (c : Conn) (p : RUDPPacket) (a : Address)
    (hm : Output.datagram p a ∈ (shutdown c).2) : p.fin = true := by
  simp only [shutdown, send_fin, schedule_send_out_of_order, clear_sending_window,
    List.mem_append, List.mem_singleton, List.mem_map, List.mem_filter] at hm
  rcases hm with (hm | ⟨kv, _, hkv⟩) | hm
  · obtain ⟨rfl, -⟩ := (Output.datagram.injEq _ _ _ _).mp hm
    rfl
  · exact Output.noConfusion hkv
  · exact Output.noConfusion hm

theorem RInv_queue_append (C : Consts) (n0 : Nat) (c : Conn)
    (segs : List (Nat × List Char)) (hI : RInv C n0 c) :
    RInv C n0 { c with segment_queue := c.segment_queue ++ segs } := by
  refine RInv_transport C n0 c _ hI rfl rfl rfl rfl ?_ (fun h => h)
  intro h
  simp only [ne_eq, List.append_eq_nil]
  intro hboth
  exact h hboth.1

theorem insertW_ne_nil (k : Nat) (e : ScheduledPacket) (w : List (Nat × ScheduledPacket)) :
    insertW k e w ≠ [] := by
  cases w with
  | nil => simp [insertW]
  | cons kv rest =>
    unfold insertW
    split <;> simp

/-- Inserting an entry keyed and stamped with the current
`_next_sequence_number` (as `_send_syn` does) preserves the invariant. -/
theorem RInv_insert_top (C : Consts) (n0 : Nat) (c : Conn) (e : ScheduledPacket) (b : Bool)
    (hW : 0 < C.WINDOW_SIZE) (hI : RInv C n0 c)
    (he : e.rudp_packet.sequence_number = c.next_sequence_number) :
    RInv C n0
      { c with
        syn_handle := b
        sending_window := insertW c.next_sequence_number e c.sending_window } := by
  by_cases hw : c.sending_window = []
  · refine { ack_stopped := hI.ack_stopped, n0_le := hI.n0_le,
             run_conn := fun h => hI.run_conn h, run_queue := fun h => hI.run_queue h,
             keys_sorted := ?_, keys_le := ?_, keys_ge := ?_, pkt_seq := ?_, top_mem := ?_,
             win_len := ?_, run_len := ?_, run_nonempty := ?_ }
    · show (keysW (insertW c.next_sequence_number e c.sending_window)).Pairwise (· < ·)
      rw [hw]
      simp [insertW, keysW]
    · show ∀ k ∈ keysW (insertW c.next_sequence_number e c.sending_window),
        k ≤ c.next_sequence_number
      rw [hw]
      simp [insertW, keysW]
    · show ∀ k ∈ keysW (insertW c.next_sequence_number e c.sending_window), n0 ≤ k
      rw [hw]
      simp only [insertW, keysW, List.map_cons, List.map_nil, List.mem_singleton]
      rintro k rfl
      exact hI.n0_le
    · show ∀ kv ∈ insertW c.next_sequence_number e c.sending_window,
        kv.2.rudp_packet.sequence_number = kv.1
      rw [hw]
      simp only [insertW, List.mem_singleton]
      rintro kv rfl
      exact he
    · intro _
      show c.next_sequence_number ∈ keysW (insertW c.next_sequence_number e c.sending_window)
      rw [hw]
      simp [insertW, keysW]
    · show (insertW c.next_sequence_number e c.sending_window).length ≤ C.WINDOW_SIZE
      rw [hw]
      simpa [insertW] using hW
    · intro h
      exact absurd (hI.run_nonempty h) (by simp [hw])
    · intro _
      exact insertW_ne_nil _ _ _
  · have hmem : c.next_sequence_number ∈ keysW c.sending_window := hI.top_mem hw
    have hkeys := keysW_insertW_of_mem c.next_sequence_number e c.sending_window hmem
    have hlen := insertW_length_of_mem c.next_sequence_number e c.sending_window hmem
    refine { ack_stopped := hI.ack_stopped, n0_le := hI.n0_le,
             run_conn := fun h => hI.run_conn h, run_queue := fun h => hI.run_queue h,
             keys_sorted := ?_, keys_le := ?_, keys_ge := ?_, pkt_seq := ?_, top_mem := ?_,
             win_len := ?_, run_len := ?_, run_nonempty := ?_ }
    · show (keysW (insertW c.next_sequence_number e c.sending_window)).Pairwise (· < ·)
      rw [hkeys]
      exact hI.keys_sorted
    · show ∀ k ∈ keysW (insertW c.next_sequence_number e c.sending_window),
        k ≤ c.next_sequence_number
      rw [hkeys]
      exact hI.keys_le
    · show ∀ k ∈ keysW (insertW c.next_sequence_number e c.sending_window), n0 ≤ k
      rw [hkeys]
      exact hI.keys_ge
    · intro kv hkv
      rcases mem_insertW _ _ _ _ hkv with rfl | hkv2
      · exact he
      · exact hI.pkt_seq kv hkv2
    · intro _
      show c.next_sequence_number ∈ keysW (insertW c.next_sequence_number e c.sending_window)
      rw [hkeys]
      exact hmem
    · show (insertW c.next_sequence_number e c.sending_window).length ≤ C.WINDOW_SIZE
      rw [hlen]
      exact hI.win_len
    · intro h
      show (insertW c.next_sequence_number e c.sending_window).length < C.WINDOW_SIZE
      rw [hlen]
      exact hI.run_len h
    · intro _
      exact insertW_ne_nil _ _ _

theorem RInv_send_syn (C : Consts) (n0 : Nat) (c : Conn) (hW : 0 < C.WINDOW_SIZE)
    (hI : RInv C n0 c) :
    RInv C n0 (send_syn C { c with syn_handle := false }) := by
  rw [send_syn_eq]
  exact RInv_insert_top C n0 c
    ({ rudp_packet := synPacketOf { c with syn_handle := false },
       timeout := C.PACKET_TIMEOUT, timeout_cb := true, retries := 0 }) false hW hI rfl

theorem retireLoop_cancels (seqs : List Nat) (w w2 : List (Nat × ScheduledPacket))
    (os : List Output) (h : retireLoop w seqs = some (w2, os)) (p : RUDPPacket) (a : Address) :
    Output.datagram p a ∉ os := by
  induction seqs generalizing w os with
  | nil =>
    simp only [retireLoop, Option.some.injEq, Prod.mk.injEq] at h
    rw [← h.2]
    exact List.not_mem_nil _
  | cons s rest ih =>
    unfold retireLoop at h
    split at h
    · exact Option.noConfusion h
    · next r hr =>
      simp only [Option.map_eq_some'] at h
      obtain ⟨⟨w2x, os2⟩, hrec, heq⟩ := h
      simp only [Prod.mk.injEq] at heq
      obtain ⟨rfl, hos⟩ := heq
      rw [← hos]
      intro hm
      rcases List.mem_cons.mp hm with hm | hm
      · exact Output.noConfusion hm
      · exact ih _ _ hrec hm

/-- `_retire_packets_with_seqnum_up_to` preserves the invariant and emits
only timer cancellations, never a datagram. -/
theorem RInv_retire (C : Consts) (n0 : Nat) (c : Conn) (acknum : Nat) (c2 : Conn)
    (os : List Output) (hI : RInv C n0 c)
    (h : retire_packets_with_seqnum_up_to C c acknum = some (c2, os)) :
    RInv C n0 c2 ∧ ∀ p a, Output.datagram p a ∉ os := by
  unfold retire_packets_with_seqnum_up_to at h
  split at h
  · next hwin =>
    simp only [Option.some.injEq, Prod.mk.injEq] at h
    obtain ⟨rfl, rfl⟩ := h
    exact ⟨hI, fun p a => List.not_mem_nil _⟩
  · next lowest sch rest hwin =>
    dsimp only at h
    split at h
    · exact Option.noConfusion h
    · next r hloop =>
      obtain ⟨w2, os1⟩ := r
      have hsub := retireLoop_sublist _ _ _ _ hloop
      have hcanc := fun p a => retireLoop_cancels _ _ _ _ hloop p a
      have hwne : c.sending_window ≠ [] := by rw [hwin]; simp
      have hnextmem : c.next_sequence_number ∈ keysW w2 := by
        apply retireLoop_keys_mem _ _ _ _ hloop _ _ (hI.top_mem hwne)
        intro hmem
        rw [List.mem_range'] at hmem
        omega
      have hImid : RInv C n0 { c with sending_window := w2 } :=
        { ack_stopped := hI.ack_stopped, n0_le := hI.n0_le,
          keys_sorted := List.Pairwise.sublist (keysW_sublist _ _ hsub) hI.keys_sorted,
          keys_le := fun k hk => hI.keys_le k ((keysW_sublist _ _ hsub).subset hk),
          keys_ge := fun k hk => hI.keys_ge k ((keysW_sublist _ _ hsub).subset hk),
          pkt_seq := fun kv hkv => hI.pkt_seq kv (hsub.subset hkv),
          top_mem := fun _ => hnextmem,
          win_len := hsub.length_le.trans hI.win_len,
          run_conn := fun hr => hI.run_conn hr,
          run_queue := fun hr => hI.run_queue hr,
          run_len := fun hr => Nat.lt_of_le_of_lt hsub.length_le (hI.run_len hr),
          run_nonempty := fun _ => by
            intro h0
            have h0' : w2 = [] := h0
            rw [h0'] at hnextmem
            simp [keysW] at hnextmem }
      split at h
      · simp only [Option.map_eq_some'] at h
        obtain ⟨⟨c2x, os2x⟩, hen, heq⟩ := h
        simp only [Prod.mk.injEq] at heq
        obtain ⟨rfl, hos⟩ := heq
        obtain ⟨hI2, hos2⟩ := RInv_enable C n0 _ _ _ hImid hen
        subst hos2
        refine ⟨hI2, fun p a hm => ?_⟩
        rw [← hos, List.append_nil] at hm
        exact hcanc p a hm
      · simp only [Option.some.injEq, Prod.mk.injEq] at h
        obtain ⟨rfl, rfl⟩ := h
        exact ⟨hImid, fun p a hm => hcanc p a hm⟩

theorem pop_received_no_datagram (c : Conn) (p : RUDPPacket) (a : Address) :
    Output.datagram p a ∉ (pop_received_packet c).2 := by
  unfold pop_received_packet
  split <;> simp

/-- The dequeue tick of the looping sender (`_dequeue_outbound_message`):
appending the freshly stamped entry and re-running the disabling check
preserves the invariant, for any value of the looping-send flag entering
the tick. -/
theorem RInv_dequeue_tick (C : Consts) (n0 : Nat) (c : Conn) (b : Bool) (mf : Nat)
    (msg : List Char) (qrest : List (Nat × List Char)) (hI : RInv C n0 c)
    (hlen : c.sending_window.length < C.WINDOW_SIZE)
    (hconn : b = true → c.connected = true) :
    RInv C n0 (attempt_disabling_looping_send C
      { c with
        looping_send := b
        segment_queue := qrest
        next_sequence_number := c.next_sequence_number + 1
        sending_window := insertW (c.next_sequence_number + 1)
          ({ rudp_packet := mkPacket (c.next_sequence_number + 1) c.dest_addr c.own_addr msg mf
              c.next_expected_seqnum false false,
             timeout := C.PACKET_TIMEOUT, timeout_cb := true, retries := 0 })
          c.sending_window }) := by
  have hfresh : c.next_sequence_number + 1 ∉ keysW c.sending_window := by
    intro hm
    have := hI.keys_le _ hm
    omega
  rw [insertW_of_not_mem _ _ _ hfresh]
  refine RInv_of_disable C n0 _ ?_ ?_ ?_ ?_ ?_ ?_ ?_ ?_ ?_ ?_
  · exact hI.ack_stopped
  · show ((keysW (c.sending_window ++ [_])).Pairwise (· < ·))
    rw [keysW_append]
    exact pairwise_snoc _ _ hI.keys_sorted (fun x hx => by
      have := hI.keys_le x hx
      omega)
  · intro k hk
    rw [keysW_append, List.mem_append, List.mem_singleton] at hk
    rcases hk with hk | rfl
    · exact (hI.keys_le k hk).trans (Nat.le_succ _)
    · exact Nat.le_refl _
  · intro k hk
    rw [keysW_append, List.mem_append, List.mem_singleton] at hk
    rcases hk with hk | rfl
    · exact hI.keys_ge k hk
    · exact hI.n0_le.trans (Nat.le_succ _)
  · intro kv hkv
    rw [List.mem_append, List.mem_singleton] at hkv
    rcases hkv with hkv | rfl
    · exact hI.pkt_seq kv hkv
    · rfl
  · intro _
    rw [keysW_append, List.mem_append, List.mem_singleton]
    exact Or.inr rfl
  · exact hI.n0_le.trans (Nat.le_succ _)
  · show (c.sending_window ++ [_]).length ≤ C.WINDOW_SIZE
    rw [List.length_append, List.length_singleton]
    omega
  · exact hconn
  · exact fun _ => by simp

/-- `_process_syn_packet` (reached only while not connected) preserves the
invariant and never emits a datagram itself. -/
theorem RInv_process_syn (C : Consts) (n0 : Nat) (c : Conn) (p : RUDPPacket)
    (c2 : Conn) (os : List Output) (hW : 0 < C.WINDOW_SIZE) (hI : RInv C n0 c)
    (hc : c.connected = false) (h : process_syn_packet C c p = some (c2, os)) :
    RInv C n0 c2 ∧ ∀ q a, Output.datagram q a ∉ os := by
  unfold process_syn_packet at h
  split at h
  · -- SYNACK: ack > 0
    split at h
    · next hwin =>
      simp only [Option.some.injEq, Prod.mk.injEq] at h
      obtain ⟨rfl, rfl⟩ := h
      exact ⟨hI, by simp⟩
    · next lowest e rest hwin =>
      split at h
      · next hack =>
        simp only [Option.map_eq_some'] at h
        obtain ⟨⟨c2x, os2⟩, hen, heq⟩ := h
        simp only [Prod.mk.injEq] at heq
        obtain ⟨rfl, hos⟩ := heq
        have hkeys : keysW c.sending_window = lowest :: keysW rest := by
          rw [hwin]
          rfl
        have hsorted := hI.keys_sorted
        rw [hkeys, List.pairwise_cons] at hsorted
        have hIacc : RInv C n0 { c with sending_window := rest, connected := true } :=
          { ack_stopped := hI.ack_stopped, n0_le := hI.n0_le,
            keys_sorted := hsorted.2,
            keys_le := fun k hk => hI.keys_le k (by rw [hkeys]; exact List.mem_cons_of_mem _ hk),
            keys_ge := fun k hk => hI.keys_ge k (by rw [hkeys]; exact List.mem_cons_of_mem _ hk),
            pkt_seq := fun kv hkv => hI.pkt_seq kv (by rw [hwin]; exact List.mem_cons_of_mem _ hkv),
            top_mem := by
              intro hne2
              show c.next_sequence_number ∈ keysW rest
              have hne3 : rest ≠ [] := hne2
              have hmem : c.next_sequence_number ∈ lowest :: keysW rest := by
                rw [← hkeys]
                exact hI.top_mem (by rw [hwin]; simp)
              rcases List.mem_cons.mp hmem with heq2 | hmem2
              · exfalso
                obtain ⟨r0, hr0⟩ := List.exists_mem_of_ne_nil rest hne3
                have h01 : r0.1 ∈ keysW rest := List.mem_map_of_mem _ hr0
                have hlt := hsorted.1 _ h01
                have hle := hI.keys_le r0.1 (by rw [hkeys]; exact List.mem_cons_of_mem _ h01)
                omega
              · exact hmem2,
            win_len := by
              show rest.length ≤ C.WINDOW_SIZE
              have := hI.win_len
              rw [hwin] at this
              simp only [List.length_cons] at this
              omega,
            run_conn := fun _ => rfl,
            run_queue := fun hr => hI.run_queue hr,
            run_len := fun hr => by
              show rest.length < C.WINDOW_SIZE
              have := hI.run_len hr
              rw [hwin] at this
              simp only [List.length_cons] at this
              omega,
            run_nonempty := fun hr => absurd (hI.run_conn hr) (by rw [hc]; simp) }
        obtain ⟨hI2, hos2⟩ := RInv_enable C n0 _ _ _ hIacc hen
        subst hos2
        refine ⟨hI2, fun q a hm => ?_⟩
        rw [← hos] at hm
        rcases List.mem_cons.mp hm with hm | hm
        · exact Output.noConfusion hm
        · exact List.not_mem_nil _ hm
      · simp only [Option.some.injEq, Prod.mk.injEq] at h
        obtain ⟨rfl, rfl⟩ := h
        exact ⟨hI, by simp⟩
  · -- bare SYN: ack = 0
    dsimp only at h
    split at h
    · -- the initial SYN one-shot is still pending: no re-send
      simp only [clear_sending_window, Option.some.injEq, Prod.mk.injEq] at h
      obtain ⟨rfl, rfl⟩ := h
      refine ⟨?_, fun q a hm => ?_⟩
      · exact
          { ack_stopped := hI.ack_stopped, n0_le := hI.n0_le,
            keys_sorted := by simp [keysW],
            keys_le := by simp [keysW],
            keys_ge := by simp [keysW],
            pkt_seq := by simp,
            top_mem := by simp,
            win_len := by simp,
            run_conn := fun _ => rfl,
            run_queue := fun hr => hI.run_queue hr,
            run_len := fun hr => absurd (hI.run_conn hr) (by rw [hc]; simp),
            run_nonempty := fun hr => absurd (hI.run_conn hr) (by rw [hc]; simp) }
      · simp only [List.mem_map, List.mem_filter] at hm
        obtain ⟨kv, _, hkv⟩ := hm
        exact Output.noConfusion hkv
    · -- the one-shot has fired: re-send the SYN over the cleared window
      simp only [clear_sending_window, Option.some.injEq, Prod.mk.injEq] at h
      obtain ⟨rfl, rfl⟩ := h
      refine ⟨?_, fun q a hm => ?_⟩
      · exact
          { ack_stopped := hI.ack_stopped, n0_le := hI.n0_le,
            keys_sorted := by simp [send_syn, schedule_send_in_order, insertW, keysW],
            keys_le := by
              simp [send_syn, schedule_send_in_order, insertW, keysW, synPacketOf, mkPacket],
            keys_ge := by
              simp only [send_syn, schedule_send_in_order, insertW, keysW, synPacketOf, mkPacket,
                List.map_cons, List.map_nil, List.mem_singleton]
              rintro k rfl
              exact hI.n0_le,
            pkt_seq := by
              intro kv hkv
              simp only [send_syn, schedule_send_in_order, insertW, List.mem_singleton] at hkv
              subst hkv
              rfl,
            top_mem := by
              simp [send_syn, schedule_send_in_order, insertW, keysW, synPacketOf, mkPacket],
            win_len := by
              simp only [send_syn, schedule_send_in_order, insertW, List.length_singleton]
              omega,
            run_conn := fun _ => rfl,
            run_queue := fun hr => hI.run_queue hr,
            run_len := fun hr => absurd (hI.run_conn hr) (by rw [hc]; simp),
            run_nonempty := fun hr => absurd (hI.run_conn hr) (by rw [hc]; simp) }
      · simp only [List.mem_map, List.mem_filter] at hm
        obtain ⟨kv, _, hkv⟩ := hm
        exact Output.noConfusion hkv

/-- Marking a fired retransmission timer inactive changes no key, packet or
length of the send window, so the invariant is preserved. -/
theorem RInv_mark (C : Consts) (n0 : Nat) (c : Conn) (k : Nat) (hI : RInv C n0 c) :
    RInv C n0 { c with sending_window := markTimerFired k c.sending_window } := by
  refine { ack_stopped := hI.ack_stopped, n0_le := hI.n0_le,
           run_conn := fun h => hI.run_conn h, run_queue := fun h => hI.run_queue h,
           keys_sorted := ?_, keys_le := ?_, keys_ge := ?_, pkt_seq := ?_, top_mem := ?_,
           win_len := ?_, run_len := ?_, run_nonempty := ?_ }
  · show (keysW (markTimerFired k c.sending_window)).Pairwise (· < ·)
    rw [keysW_markTimerFired]
    exact hI.keys_sorted
  · show ∀ k2 ∈ keysW (markTimerFired k c.sending_window), k2 ≤ c.next_sequence_number
    rw [keysW_markTimerFired]
    exact hI.keys_le
  · show ∀ k2 ∈ keysW (markTimerFired k c.sending_window), n0 ≤ k2
    rw [keysW_markTimerFired]
    exact hI.keys_ge
  · intro kv hkv
    obtain ⟨kv0, hkv0, h1, h2, -⟩ := mem_markTimerFired _ _ _ hkv
    rw [h1, h2]
    exact hI.pkt_seq kv0 hkv0
  · intro hne
    show c.next_sequence_number ∈ keysW (markTimerFired k c.sending_window)
    rw [keysW_markTimerFired]
    refine hI.top_mem ?_
    intro h0
    apply hne
    show markTimerFired k c.sending_window = []
    rw [h0]
    exact markTimerFired_nil k
  · show (markTimerFired k c.sending_window).length ≤ C.WINDOW_SIZE
    rw [length_markTimerFired]
    exact hI.win_len
  · intro h
    show (markTimerFired k c.sending_window).length < C.WINDOW_SIZE
    rw [length_markTimerFired]
    exact hI.run_len h
  · intro h h0
    have h0' : c.sending_window = [] := by simpa [markTimerFired] using h0
    exact hI.run_nonempty h h0'

/-- Replacing the entry at an existing key (as `_do_send_packet` does when
re-arming) preserves the invariant, provided the new entry still carries
its key as sequence number. -/
theorem RInv_insert_mem (C : Consts) (n0 : Nat) (c : Conn) (k : Nat)
    (e : ScheduledPacket) (hI : RInv C n0 c)
    (hmem : k ∈ keysW c.sending_window)
    (he : e.rudp_packet.sequence_number = k) :
    RInv C n0 { c with sending_window := insertW k e c.sending_window } := by
  have hkeys := keysW_insertW_of_mem k e c.sending_window hmem
  have hlen := insertW_length_of_mem k e c.sending_window hmem
  refine { ack_stopped := hI.ack_stopped, n0_le := hI.n0_le,
           run_conn := fun h => hI.run_conn h, run_queue := fun h => hI.run_queue h,
           keys_sorted := ?_, keys_le := ?_, keys_ge := ?_, pkt_seq := ?_, top_mem := ?_,
           win_len := ?_, run_len := ?_, run_nonempty := ?_ }
  · show (keysW (insertW k e c.sending_window)).Pairwise (· < ·)
    rw [hkeys]
    exact hI.keys_sorted
  · show ∀ k2 ∈ keysW (insertW k e c.sending_window), k2 ≤ c.next_sequence_number
    rw [hkeys]
    exact hI.keys_le
  · show ∀ k2 ∈ keysW (insertW k e c.sending_window), n0 ≤ k2
    rw [hkeys]
    exact hI.keys_ge
  · intro kv hkv
    rcases mem_insertW _ _ _ _ hkv with rfl | hkv2
    · exact he
    · exact hI.pkt_seq kv hkv2
  · intro _
    show c.next_sequence_number ∈ keysW (insertW k e c.sending_window)
    rw [hkeys]
    refine hI.top_mem ?_
    intro h0
    rw [h0] at hmem
    simp [keysW] at hmem
  · show (insertW k e c.sending_window).length ≤ C.WINDOW_SIZE
    rw [hlen]
    exact hI.win_len
  · intro h
    show (insertW k e c.sending_window).length < C.WINDOW_SIZE
    rw [hlen]
    exact hI.run_len h
  · intro _
    exact insertW_ne_nil _ _ _

/-- One event preserves the reachable-state invariant, and every datagram
emitted in that event either is a FIN or carries a sequence number at least
`n0`. -/
theorem RInv_step (C : Consts) (n0 : Nat) (c : Conn) (e : Event) (c2 : Conn)
    (os : List Output) (hW : 0 < C.WINDOW_SIZE) (hI : RInv C n0 c)
    (h : step C c e = some (c2, os)) :
    RInv C n0 c2 ∧ ∀ p a, Output.datagram p a ∈ os →
      p.fin = true ∨ n0 ≤ p.sequence_number := by
  cases e with
  | sendMessage m =>
    simp only [step, send_message] at h
    obtain ⟨hI2, rfl⟩ := RInv_enable C n0 _ _ _ (RInv_queue_append C n0 c _ hI) h
    exact ⟨hI2, by simp⟩
  | recvPacket p =>
    simp only [step] at h
    by_cases hf : p.fin = true
    · by_cases hcs : c.connected = true ∨ c.syn_handle = false
      · rw [(receive_packet_cases C c p).1 hf hcs] at h
        simp only [Option.some.injEq] at h
        have h' : shutdown c = (c2, os) := h
        refine ⟨?_, fun q a hm => ?_⟩
        · have := RInv_shutdown C n0 c hI
          rw [h'] at this
          exact this
        · refine Or.inl (shutdown_datagram_fin c q a ?_)
          rw [h']
          exact hm
      · have hc : c.connected = false := by
          cases hcon : c.connected
          · rfl
          · exact absurd (Or.inl hcon) hcs
        have hs : c.syn_handle = true := by
          cases hsy : c.syn_handle
          · exact absurd (Or.inr hsy) hcs
          · rfl
        rw [(receive_packet_cases C c p).2.1 hf hc hs] at h
        simp only [Option.some.injEq, Prod.mk.injEq] at h
        obtain ⟨rfl, rfl⟩ := h
        exact ⟨hI, by simp⟩
    · have hf' : p.fin = false := by simpa using hf
      by_cases hs : p.syn = true
      · by_cases hc : c.connected = true
        · rw [(receive_packet_cases C c p).2.2.2.1 hf' hs hc] at h
          simp only [Option.some.injEq, Prod.mk.injEq] at h
          obtain ⟨rfl, rfl⟩ := h
          exact ⟨hI, by simp⟩
        · have hc' : c.connected = false := by simpa using hc
          rw [(receive_packet_cases C c p).2.2.1 hf' hs hc'] at h
          obtain ⟨hI2, hnod⟩ := RInv_process_syn C n0 c p c2 os hW hI hc' h
          exact ⟨hI2, fun q a hm => absurd hm (hnod q a)⟩
      · have hs' : p.syn = false := by simpa using hs
        by_cases hc : c.connected = true
        · rw [(receive_packet_cases C c p).2.2.2.2.1 hf' hs' hc] at h
          obtain ⟨c1, hret, hw2, hn2, hc2, hl2, hsy2, hq2, ha2⟩ :=
            process_casual_spec C c p c2 os h
          rcases hret with hret | ⟨heq1, rfl⟩
          · obtain ⟨hI1, hnod⟩ := RInv_retire C n0 c p.ack c1 os hI hret
            refine ⟨RInv_transport C n0 c1 c2 hI1 hw2 hn2 hc2 hl2 ?_ ha2,
              fun q a hm => absurd hm (hnod q a)⟩
            intro hne
            rw [hq2]
            exact hne
          · subst heq1
            refine ⟨RInv_transport C n0 c1 c2 hI hw2 hn2 hc2 hl2 ?_ ha2, by simp⟩
            intro hne
            rw [hq2]
            exact hne
        · have hc' : c.connected = false := by simpa using hc
          rw [(receive_packet_cases C c p).2.2.2.2.2 hf' hs' hc'] at h
          simp only [Option.some.injEq, Prod.mk.injEq] at h
          obtain ⟨rfl, rfl⟩ := h
          exact ⟨hI, by simp⟩
  | shutdownCall =>
    simp only [step, Option.some.injEq] at h
    refine ⟨?_, fun q a hm => ?_⟩
    · have := RInv_shutdown C n0 c hI
      rw [h] at this
      exact this
    · refine Or.inl (shutdown_datagram_fin c q a ?_)
      rw [h]
      exact hm
  | synTimeout =>
    simp only [step] at h
    split at h
    · next hsyn =>
      simp only [Option.some.injEq, Prod.mk.injEq] at h
      obtain ⟨rfl, rfl⟩ := h
      exact ⟨RInv_send_syn C n0 c hW hI, by simp⟩
    · exact Option.noConfusion h
  | packetTimeout seqnum =>
    simp only [step] at h
    split at h
    · exact Option.noConfusion h
    · next sch hlook =>
      split at h
      · next htb =>
        have hIm := RInv_mark C n0 c seqnum hI
        have hlook2 : lookupW seqnum (markTimerFired seqnum c.sending_window) =
            some { sch with timeout_cb := false } := by
          rw [lookupW_markTimerFired_self, hlook]
          rfl
        have hkeymem : seqnum ∈ keysW (markTimerFired seqnum c.sending_window) := by
          rw [keysW_markTimerFired]
          exact List.mem_map_of_mem _ (lookupW_mem _ _ _ hlook)
        have hpseq : ({ sch with timeout_cb := false } :
            ScheduledPacket).rudp_packet.sequence_number = seqnum :=
          hIm.pkt_seq (seqnum, { sch with timeout_cb := false }) (lookupW_mem _ _ _ hlook2)
        rcases do_send_spec C
            { c with sending_window := markTimerFired seqnum c.sending_window } seqnum
            { sch with timeout_cb := false } hlook2 with ⟨hmax, hds⟩ | ⟨hlt, hds⟩
        · rw [hds] at h
          simp only [Option.some.injEq] at h
          refine ⟨?_, fun q a hm => ?_⟩
          · have := RInv_shutdown C n0 _ hIm
            rw [h] at this
            exact this
          · refine Or.inl (shutdown_datagram_fin
              { c with sending_window := markTimerFired seqnum c.sending_window } q a ?_)
            rw [h]
            exact hm
        · rw [hds] at h
          simp only [Option.some.injEq, Prod.mk.injEq] at h
          obtain ⟨rfl, rfl⟩ := h
          refine ⟨?_, fun q a hm => ?_⟩
          · exact RInv_reset_ack C n0 _ (RInv_insert_mem C n0 _ seqnum _ hIm hkeymem hpseq)
          · rw [List.mem_singleton] at hm
            obtain ⟨rfl, -⟩ := (Output.datagram.injEq _ _ _ _).mp hm
            refine Or.inr ?_
            rw [hpseq]
            exact hIm.keys_ge seqnum hkeymem
      · exact Option.noConfusion h
  | tickSend =>
    simp only [step] at h
    split at h
    · next hrun =>
      rcases hq : c.segment_queue with _ | ⟨⟨mf, msg⟩, qrest⟩
      · exact absurd hq (hI.run_queue hrun)
      · rw [dequeue_eq C c mf msg qrest hq] at h
        simp only [Option.some.injEq, Prod.mk.injEq] at h
        obtain ⟨rfl, rfl⟩ := h
        refine ⟨?_, by simp⟩
        exact RInv_dequeue_tick C n0 c c.looping_send mf msg qrest hI (hI.run_len hrun)
          (fun _ => hI.run_conn hrun)
    · exact Option.noConfusion h
  | tickAck =>
    simp only [step] at h
    rw [hI.ack_stopped] at h
    simp at h
  | tickReceive =>
    simp only [step] at h
    split at h
    · next hlr =>
      simp only [Option.some.injEq] at h
      obtain ⟨hw2, hn2, hc2, hl2, hsy2, hq2, ha2⟩ := pop_received_fields c
      have hc2' : c2 = (pop_received_packet c).1 := by rw [h]
      refine ⟨?_, fun q a hm => ?_⟩
      · rw [hc2']
        refine RInv_transport C n0 c _ hI hw2 hn2 hc2 hl2 ?_ ha2
        intro hne
        rw [hq2]
        exact hne
      · have hos : os = (pop_received_packet c).2 := by rw [h]
        rw [hos] at hm
        exact absurd hm (pop_received_no_datagram c q a)
    · exact Option.noConfusion h

/-- The invariant holds along every run, and no datagram other than a FIN
ever carries a sequence number below `n0`. -/
theorem RInv_run (C : Consts) (n0 : Nat) (c : Conn) (es : List Event) (c2 : Conn)
    (os : List Output) (hW : 0 < C.WINDOW_SIZE) (hI : RInv C n0 c)
    (h : run C c es = some (c2, os)) :
    RInv C n0 c2 ∧ ∀ p a, Output.datagram p a ∈ os →
      p.fin = true ∨ n0 ≤ p.sequence_number := by
  induction es generalizing c os with
  | nil =>
    simp only [run, Option.some.injEq, Prod.mk.injEq] at h
    obtain ⟨rfl, rfl⟩ := h
    exact ⟨hI, by simp⟩
  | cons e rest ih =>
    have hrunc : run C c (e :: rest) = match step C c e with
      | none => none
      | some r => (run C r.1 rest).map (fun r2 => (r2.1, r.2 ++ r2.2)) := rfl
    rw [hrunc] at h
    rcases hstep : step C c e with _ | ⟨c1, os1⟩
    · rw [hstep] at h
      exact Option.noConfusion h
    · rw [hstep] at h
      dsimp only at h
      simp only [Option.map_eq_some'] at h
      obtain ⟨⟨c2x, os2⟩, hrun2, heq⟩ := h
      simp only [Prod.mk.injEq] at heq
      obtain ⟨rfl, hos⟩ := heq
      obtain ⟨hI1, hd1⟩ := RInv_step C n0 c e c1 os1 hW hI hstep
      obtain ⟨hI2, hd2⟩ := ih c1 os2 hI1 hrun2
      refine ⟨hI2, fun p a hm => ?_⟩
      rw [← hos] at hm
      rcases List.mem_append.mp hm with hm | hm
      · exact hd1 p a hm
      · exact hd2 p a hm

/-- C8 (amended): for every reachable state of a connection under any event
sequence the send window holds at most `WINDOW_SIZE` entries; the looping
sender runs only when the window is strictly below `WINDOW_SIZE` and the
segment queue is nonempty, and each dequeue tick inserts exactly one entry
and then leaves the sender running exactly when the window is still below
`WINDOW_SIZE` and the segment queue is still nonempty.  (The claim's last
conjunct — that `_send_syn` only ever inserts into a cleared window — is
refuted separately: after a bare SYN connects the endpoint with its one-shot
still pending, `_send_syn` fires into a nonempty window.) -/
theorem C8_window_bound_amended (C : Consts) (n0 : Nat) (own dest : Address)
    (relay : Option Address) (es : List Event) (c2 : Conn) (os : List Output)
    (hW : 0 < C.WINDOW_SIZE)
    (h : run C (initConn n0 own dest relay) es = some (c2, os)) :
    c2.sending_window.length ≤ C.WINDOW_SIZE
    ∧ (c2.looping_send = true →
        c2.sending_window.length < C.WINDOW_SIZE ∧ c2.segment_queue ≠ [])
    ∧ (∀ c3 os3, step C c2 Event.tickSend = some (c3, os3) →
        c3.sending_window.length = c2.sending_window.length + 1
        ∧ (c3.looping_send = true ↔
            (c3.sending_window.length < C.WINDOW_SIZE ∧ c3.segment_queue ≠ []))) := by
  have hI2 := (RInv_run C n0 _ es c2 os hW (RInv_init C n0 own dest relay) h).1
  refine ⟨hI2.win_len, fun hr => ⟨hI2.run_len hr, hI2.run_queue hr⟩, ?_⟩
  intro c3 os3 h3
  simp only [step] at h3
  split at h3
  · next hrun =>
    rcases hq : c2.segment_queue with _ | ⟨⟨mf, msg⟩, qrest⟩
    · exact absurd hq (hI2.run_queue hrun)
    · have hfresh : c2.next_sequence_number + 1 ∉ keysW c2.sending_window := by
        intro hm
        have := hI2.keys_le _ hm
        omega
      rw [dequeue_eq C c2 mf msg qrest hq, insertW_of_not_mem _ _ _ hfresh] at h3
      simp only [Option.some.injEq, Prod.mk.injEq] at h3
      obtain ⟨rfl, rfl⟩ := h3
      have hiff := attempt_disabling_run_iff C
        { c2 with
          segment_queue := qrest
          next_sequence_number := c2.next_sequence_number + 1
          sending_window := c2.sending_window ++
            [(c2.next_sequence_number + 1,
              { rudp_packet := mkPacket (c2.next_sequence_number + 1) c2.dest_addr c2.own_addr
                  msg mf c2.next_expected_seqnum false false,
                timeout := C.PACKET_TIMEOUT, timeout_cb := true, retries := 0 })] }
      rcases attempt_disabling_eq C
        { c2 with
          segment_queue := qrest
          next_sequence_number := c2.next_sequence_number + 1
          sending_window := c2.sending_window ++
            [(c2.next_sequence_number + 1,
              { rudp_packet := mkPacket (c2.next_sequence_number + 1) c2.dest_addr c2.own_addr
                  msg mf c2.next_expected_seqnum false false,
                timeout := C.PACKET_TIMEOUT, timeout_cb := true, retries := 0 })] }
        with hd | hd <;> rw [hd] at hiff ⊢
      · refine ⟨by simp, ?_⟩
        rw [hiff]
        constructor
        · rintro ⟨-, a, b⟩
          exact ⟨a, b⟩
        · rintro ⟨a, b⟩
          exact ⟨hrun, a, b⟩
      · refine ⟨by simp, ?_⟩
        constructor
        · intro hfalse
          exact absurd hfalse (by simp)
        · rintro ⟨a, b⟩
          exact absurd (hiff.mpr ⟨hrun, a, b⟩) (by simp)
  · exact Option.noConfusion h3

/-- C8 counterexample: after a bare SYN (`ack = 0`) connects the endpoint
while its one-shot SYN timer is still pending, `send_message` places a data
packet in the send window; the pending `_send_syn` then fires into this
*nonempty* window and its insertion replaces the stored data packet at key 6
with the SYN.  Before the timer fires the single window entry is a data
packet (`syn = false`) and `syn_handle` is still active; afterwards the
single entry at the same key is the SYN. -/
theorem C8_send_syn_nonempty_window :
    ((run Cx connA [Event.recvPacket (mkPacket 10 addrA addrB [] 0 0 true false),
        Event.sendMessage ['a']]).map
      (fun r => (r.1.syn_handle, keysW r.1.sending_window,
        r.1.sending_window.map (fun kv => kv.2.rudp_packet.syn)))
      = some (true, [6], [false]))
    ∧ ((run Cx connA [Event.recvPacket (mkPacket 10 addrA addrB [] 0 0 true false),
        Event.sendMessage ['a'], Event.synTimeout]).map
      (fun r => (keysW r.1.sending_window,
        r.1.sending_window.map (fun kv => kv.2.rudp_packet.syn)))
      = some ([6], [true])) := by
  constructor
  · decide
  · decide

theorem C8_witness :
    run Cx (initConn 5 addrA addrB none) [Event.synTimeout]
      = some ({ connW with syn_handle := false }, [])
    ∧ ({ connW with syn_handle := false } : Conn).sending_window.length ≤ Cx.WINDOW_SIZE :=
  ⟨by decide,
   (C8_window_bound_amended Cx 5 addrA addrB none [Event.synTimeout]
     ({ connW with syn_handle := false }) [] (by decide) (by decide)).1⟩

/-- C9: the looping-ack periodic task is never started from a stopped
state.  `_reset_ack_timeout` only restarts a *running* loop, no other call
site starts `_looping_ack`, and the loop starts out stopped; hence on every
reachable state of a connection the ack loop is stopped, any single further
operation leaves it stopped, and the trace never contains a bare keep-alive
ACK datagram (the `_send_ack` packet: `sequence_number = 0` with
`fin = false`) emitted by the periodic driver. -/
theorem C9_ack_loop_never_started (C : Consts) (n0 : Nat) (own dest : Address)
    (relay : Option Address) (es : List Event) (c2 : Conn) (os : List Output)
    (hW : 0 < C.WINDOW_SIZE) (hn0 : 1 ≤ n0)
    (h : run C (initConn n0 own dest relay) es = some (c2, os)) :
    c2.looping_ack = false
    ∧ (∀ e c3 os3, step C c2 e = some (c3, os3) → c3.looping_ack = false)
    ∧ (∀ p a, Output.datagram p a ∈ os → p.sequence_number = 0 → p.fin = true) := by
  obtain ⟨hI2, hout⟩ := RInv_run C n0 _ es c2 os hW (RInv_init C n0 own dest relay) h
  refine ⟨hI2.ack_stopped, ?_, ?_⟩
  · intro e c3 os3 h3
    exact (RInv_step C n0 c2 e c3 os3 hW hI2 h3).1.ack_stopped
  · intro p a hm hseq
    rcases hout p a hm with hfin | hge
    · exact hfin
    · rw [hseq] at hge
      omega

theorem C9_witness :
    run Cx (initConn 5 addrA addrB none) [Event.synTimeout]
      = some ({ connW with syn_handle := false }, [])
    ∧ ({ connW with syn_handle := false } : Conn).looping_ack = false :=
  ⟨by decide,
   (C9_ack_loop_never_started Cx 5 addrA addrB none [Event.synTimeout]
     ({ connW with syn_handle := false }) [] (by decide) (by decide) (by decide)).1⟩

/-! ### The handshake invariant for the initiating endpoint (C10) -/

/-- Invariant of every reachable state of an endpoint that never receives a
bare SYN (`ack = 0`), i.e. that plays the initiating role: while the initial
one-shot SYN is pending the endpoint is unconnected with an empty window and
an untouched `_next_sequence_number = n0`; while unconnected the window is
empty or holds exactly the SYN entry keyed `n0` (and then
`_next_sequence_number` is still `n0`); and every non-SYN (data) entry of
the window has a key strictly above the SYN's sequence number `n0`. -/
structure HsInv (C : Consts) (n0 : Nat) (c : Conn) : Prop where
  syn_not_conn : c.syn_handle = true → c.connected = false
  syn_win : c.syn_handle = true → c.sending_window = []
  syn_next : c.syn_handle = true → c.next_sequence_number = n0
  hs_win : c.connected = false → c.sending_window = [] ∨
    ∃ e, c.sending_window = [(n0, e)] ∧ e.rudp_packet.syn = true ∧
      e.rudp_packet.sequence_number = n0
  hs_next : c.connected = false → c.sending_window ≠ [] → c.next_sequence_number = n0
  data_above : ∀ kv ∈ c.sending_window, kv.2.rudp_packet.syn = false → n0 < kv.1

theorem HsInv_init (C : Consts) (n0 : Nat) (own dest : Address) (relay : Option Address) :
    HsInv C n0 (initConn n0 own dest relay) := by
  constructor <;> simp [initConn]

/-- The observable field effects of `_attempt_enabling_looping_send`: it
never touches `syn_handle` or `connected`, and either it changes nothing or
(only while connected) its immediate tick bumps `_next_sequence_number` and
inserts the corresponding freshly stamped data packet. -/
theorem enable_fields (C : Consts) (c c2 : Conn) (os : List Output)
    (h : attempt_enabling_looping_send C c = some (c2, os)) :
    c2.syn_handle = c.syn_handle ∧ c2.connected = c.connected ∧
    (c2 = c ∨
      (c.connected = true
       ∧ c2.next_sequence_number = c.next_sequence_number + 1
       ∧ ∃ mf msg, c2.sending_window = insertW (c.next_sequence_number + 1)
           ({ rudp_packet := mkPacket (c.next_sequence_number + 1) c.dest_addr c.own_addr msg mf
               c.next_expected_seqnum false false,
              timeout := C.PACKET_TIMEOUT, timeout_cb := true, retries := 0 })
           c.sending_window)) := by
  obtain ⟨-, hcases⟩ := attempt_enabling_spec C c c2 os h
  rcases hcases with rfl | ⟨mf, msg, qrest, hq, hcon, hrunf, hlen, rfl⟩
  · exact ⟨rfl, rfl, Or.inl rfl⟩
  · rcases attempt_disabling_eq C _ with hd | hd <;> rw [hd]
    · exact ⟨rfl, rfl, Or.inr ⟨hcon, rfl, mf, msg, rfl⟩⟩
    · exact ⟨rfl, rfl, Or.inr ⟨hcon, rfl, mf, msg, rfl⟩⟩

theorem HsInv_transport (C : Consts) (n0 : Nat) (c1 c2 : Conn) (hH : HsInv C n0 c1)
    (hw : c2.sending_window = c1.sending_window)
    (hn : c2.next_sequence_number = c1.next_sequence_number)
    (hc : c2.connected = c1.connected)
    (hsy : c2.syn_handle = c1.syn_handle) : HsInv C n0 c2 := by
  constructor
  · intro h
    rw [hc]
    exact hH.syn_not_conn (by rw [← hsy]; exact h)
  · intro h
    rw [hw]
    exact hH.syn_win (by rw [← hsy]; exact h)
  · intro h
    rw [hn]
    exact hH.syn_next (by rw [← hsy]; exact h)
  · intro h
    rw [hw]
    exact hH.hs_win (by rw [← hc]; exact h)
  · intro h h2
    rw [hn]
    exact hH.hs_next (by rw [← hc]; exact h) (by rw [← hw]; exact h2)
  · intro kv hkv
    exact hH.data_above kv (by rw [← hw]; exact hkv)

theorem HsInv_enable (C : Consts) (n0 : Nat) (c c2 : Conn) (os : List Output)
    (hn0le : n0 ≤ c.next_sequence_number) (hH : HsInv C n0 c)
    (h : attempt_enabling_looping_send C c = some (c2, os)) : HsInv C n0 c2 := by
  obtain ⟨hsy, hco, hcases⟩ := enable_fields C c c2 os h
  rcases hcases with rfl | ⟨hcon, hnext, mf, msg, hwin⟩
  · exact hH
  · have hsynf : c.syn_handle = false := by
      cases hsy2 : c.syn_handle
      · rfl
      · rw [hH.syn_not_conn hsy2] at hcon
        exact Bool.noConfusion hcon
    refine { syn_not_conn := fun h2 => absurd (hsy ▸ h2 : c.syn_handle = true)
               (by simp [hsynf]),
             syn_win := fun h2 => absurd (hsy ▸ h2 : c.syn_handle = true) (by simp [hsynf]),
             syn_next := fun h2 => absurd (hsy ▸ h2 : c.syn_handle = true) (by simp [hsynf]),
             hs_win := fun h2 => absurd (hco ▸ h2 : c.connected = false) (by simp [hcon]),
             hs_next := fun h2 _ => absurd (hco ▸ h2 : c.connected = false) (by simp [hcon]),
             data_above := ?_ }
    intro kv hkv
    rw [hwin] at hkv
    rcases mem_insertW _ _ _ _ hkv with rfl | hkv2
    · intro _
      omega
    · exact hH.data_above kv hkv2

theorem markTimerFired_self_singleton (k : Nat) (e : ScheduledPacket) :
    markTimerFired k [(k, e)] = [(k, { e with timeout_cb := false })] := by
  simp [markTimerFired]

theorem insertW_self_cons (k : Nat) (e e0 : ScheduledPacket)
    (rest : List (Nat × ScheduledPacket)) :
    insertW k e ((k, e0) :: rest) = (k, e) :: rest := by
  simp [insertW]

theorem lookupW_singleton (k k0 : Nat) (e0 s : ScheduledPacket)
    (h : lookupW k [(k0, e0)] = some s) : k = k0 ∧ s = e0 := by
  unfold lookupW at h
  split at h
  · next heq => exact ⟨heq.symm, (Option.some.inj h).symm⟩
  · exact Option.noConfusion h

/-- One event of an endpoint that never receives a bare SYN preserves the
handshake invariant (the reachable-state invariant of the same state is
used as a side condition). -/
theorem HsInv_step (C : Consts) (n0 : Nat) (c : Conn) (e : Event) (c2 : Conn)
    (os : List Output) (hR : RInv C n0 c) (hH : HsInv C n0 c)
    (hp : ∀ p, e = Event.recvPacket p → p.syn = true → p.fin = false → 0 < p.ack)
    (h : step C c e = some (c2, os)) : HsInv C n0 c2 := by
  cases e with
  | sendMessage m =>
    simp only [step, send_message] at h
    exact HsInv_enable C n0
      { c with segment_queue := c.segment_queue ++ gen_segments C.UDP_SAFE_SEGMENT_SIZE m }
      c2 os hR.n0_le (HsInv_transport C n0 c _ hH rfl rfl rfl rfl) h
  | recvPacket p =>
    have hpp := hp p rfl
    simp only [step] at h
    by_cases hf : p.fin = true
    · by_cases hcs : c.connected = true ∨ c.syn_handle = false
      · rw [(receive_packet_cases C c p).1 hf hcs] at h
        simp only [Option.some.injEq] at h
        have h' : shutdown c = (c2, os) := h
        have hc2 : c2 = (shutdown c).1 := by rw [h']
        rw [hc2, shutdown_fst]
        exact { syn_not_conn := fun _ => rfl, syn_win := fun _ => rfl,
                syn_next := fun h2 => hH.syn_next h2,
                hs_win := fun _ => Or.inl rfl,
                hs_next := fun _ h2 => absurd rfl h2,
                data_above := fun kv hkv => absurd hkv (List.not_mem_nil kv) }
      · have hc : c.connected = false := by
          cases hcon : c.connected
          · rfl
          · exact absurd (Or.inl hcon) hcs
        have hsy : c.syn_handle = true := by
          cases hsyx : c.syn_handle
          · exact absurd (Or.inr hsyx) hcs
          · rfl
        rw [(receive_packet_cases C c p).2.1 hf hc hsy] at h
        simp only [Option.some.injEq, Prod.mk.injEq] at h
        obtain ⟨rfl, rfl⟩ := h
        exact hH
    · have hf' : p.fin = false := by simpa using hf
      by_cases hs : p.syn = true
      · have hack := hpp hs hf'
        by_cases hc : c.connected = true
        · rw [(receive_packet_cases C c p).2.2.2.1 hf' hs hc] at h
          simp only [Option.some.injEq, Prod.mk.injEq] at h
          obtain ⟨rfl, rfl⟩ := h
          exact hH
        · have hc' : c.connected = false := by simpa using hc
          rw [(receive_packet_cases C c p).2.2.1 hf' hs hc'] at h
          unfold process_syn_packet at h
          rw [if_pos hack] at h
          split at h
          · next hwin =>
            simp only [Option.some.injEq, Prod.mk.injEq] at h
            obtain ⟨rfl, rfl⟩ := h
            exact hH
          · next lowest e0 rest hwin =>
            rcases hH.hs_win hc' with hnil | ⟨e1, hwe, hsyn1, hseq1⟩
            · rw [hwin] at hnil
              exact absurd hnil (List.cons_ne_nil _ _)
            · rw [hwin] at hwe
              simp only [List.cons.injEq, Prod.mk.injEq] at hwe
              obtain ⟨⟨h1, h2⟩, h3⟩ := hwe
              subst h3
              split at h
              · next hackeq =>
                simp only [Option.map_eq_some'] at h
                obtain ⟨⟨c2x, os2⟩, hen, heq⟩ := h
                simp only [Prod.mk.injEq] at heq
                obtain ⟨rfl, hos⟩ := heq
                have hsynf : c.syn_handle = false := by
                  cases hsy2 : c.syn_handle
                  · rfl
                  · exact absurd (hH.syn_win hsy2) (by rw [hwin]; simp)
                refine HsInv_enable C n0
                  { c with sending_window := [], connected := true } c2x os2 hR.n0_le ?_ hen
                exact { syn_not_conn := fun h2 =>
                          absurd (show c.syn_handle = true from h2) (by simp [hsynf]),
                        syn_win := fun h2 =>
                          absurd (show c.syn_handle = true from h2) (by simp [hsynf]),
                        syn_next := fun h2 =>
                          absurd (show c.syn_handle = true from h2) (by simp [hsynf]),
                        hs_win := fun h2 => absurd h2 (by simp),
                        hs_next := fun h2 _ => absurd h2 (by simp),
                        data_above := fun kv hkv => absurd hkv (List.not_mem_nil kv) }
              · simp only [Option.some.injEq, Prod.mk.injEq] at h
                obtain ⟨rfl, rfl⟩ := h
                exact hH
      · have hs' : p.syn = false := by simpa using hs
        by_cases hc : c.connected = true
        · rw [(receive_packet_cases C c p).2.2.2.2.1 hf' hs' hc] at h
          obtain ⟨c1, hret, hw2, hn2, hc2, hl2, hsy2, hq2, ha2⟩ :=
            process_casual_spec C c p c2 os h
          have hsynf : c.syn_handle = false := by
            cases hsy3 : c.syn_handle
            · rfl
            · rw [hH.syn_not_conn hsy3] at hc
              exact Bool.noConfusion hc
          have hH1 : HsInv C n0 c1 := by
            rcases hret with hret | ⟨heq1, rfl⟩
            · obtain ⟨w2, hsub, hkm, hcase⟩ := retire_spec C c p.ack c1 os hret
              have hmid : HsInv C n0 { c with sending_window := w2 } :=
                { syn_not_conn := fun h2 =>
                    absurd (show c.syn_handle = true from h2) (by simp [hsynf]),
                  syn_win := fun h2 =>
                    absurd (show c.syn_handle = true from h2) (by simp [hsynf]),
                  syn_next := fun h2 =>
                    absurd (show c.syn_handle = true from h2) (by simp [hsynf]),
                  hs_win := fun h2 =>
                    absurd (show c.connected = false from h2) (by simp [hc]),
                  hs_next := fun h2 _ =>
                    absurd (show c.connected = false from h2) (by simp [hc]),
                  data_above := fun kv hkv => hH.data_above kv (hsub.subset hkv) }
              rcases hcase with ⟨os2, hen⟩ | hceq
              · exact HsInv_enable C n0 { c with sending_window := w2 } c1 os2
                  hR.n0_le hmid hen
              · rw [hceq]
                exact hmid
            · subst heq1
              exact hH
          exact HsInv_transport C n0 c1 c2 hH1 hw2 hn2 hc2 hsy2
        · have hc' : c.connected = false := by simpa using hc
          rw [(receive_packet_cases C c p).2.2.2.2.2 hf' hs' hc'] at h
          simp only [Option.some.injEq, Prod.mk.injEq] at h
          obtain ⟨rfl, rfl⟩ := h
          exact hH
  | shutdownCall =>
    simp only [step, Option.some.injEq] at h
    have hc2 : c2 = (shutdown c).1 := by rw [h]
    rw [hc2, shutdown_fst]
    exact { syn_not_conn := fun _ => rfl, syn_win := fun _ => rfl,
            syn_next := fun h2 => hH.syn_next h2,
            hs_win := fun _ => Or.inl rfl,
            hs_next := fun _ h2 => absurd rfl h2,
            data_above := fun kv hkv => absurd hkv (List.not_mem_nil kv) }
  | synTimeout =>
    simp only [step] at h
    split at h
    · next hsyn =>
      simp only [Option.some.injEq, Prod.mk.injEq] at h
      obtain ⟨rfl, rfl⟩ := h
      have hwe := hH.syn_win hsyn
      have hne := hH.syn_next hsyn
      have hwin2 : (send_syn C { c with syn_handle := false }).sending_window
          = [(n0, { rudp_packet := mkPacket n0 c.dest_addr c.own_addr [] 0
                      c.next_expected_seqnum true false,
                    timeout := C.PACKET_TIMEOUT, timeout_cb := true, retries := 0 })] := by
        unfold send_syn schedule_send_in_order synPacketOf
        dsimp only
        rw [hwe, hne]
        rfl
      refine { syn_not_conn := fun h2 => Bool.noConfusion (show false = true from h2),
               syn_win := fun h2 => Bool.noConfusion (show false = true from h2),
               syn_next := fun h2 => Bool.noConfusion (show false = true from h2),
               hs_win := fun _ => Or.inr ⟨_, hwin2, rfl, rfl⟩,
               hs_next := fun _ _ => show c.next_sequence_number = n0 from hne,
               data_above := ?_ }
      intro kv hkv
      rw [hwin2] at hkv
      rcases List.mem_singleton.mp hkv with rfl
      intro h2
      exact absurd (show true = false from h2) (by simp)
    · exact Option.noConfusion h
  | packetTimeout seqnum =>
    simp only [step] at h
    split at h
    · exact Option.noConfusion h
    · next sch hlook =>
      split at h
      · next htb =>
        have hwne : c.sending_window ≠ [] := by
          intro h0
          rw [h0] at hlook
          exact Option.noConfusion hlook
        have hsynf : c.syn_handle = false := by
          cases hsy2 : c.syn_handle
          · rfl
          · exact absurd (hH.syn_win hsy2) hwne
        have hlook2 : lookupW seqnum (markTimerFired seqnum c.sending_window) =
            some { sch with timeout_cb := false } := by
          rw [lookupW_markTimerFired_self, hlook]
          rfl
        rcases do_send_spec C
            { c with sending_window := markTimerFired seqnum c.sending_window } seqnum
            { sch with timeout_cb := false } hlook2 with ⟨hmax, hds⟩ | ⟨hlt, hds⟩
        · rw [hds] at h
          simp only [Option.some.injEq] at h
          have hc2 : c2 = (shutdown { c with
              sending_window := markTimerFired seqnum c.sending_window }).1 := by rw [h]
          rw [hc2, shutdown_fst]
          exact { syn_not_conn := fun _ => rfl, syn_win := fun _ => rfl,
                  syn_next := fun h2 =>
                    absurd (show c.syn_handle = true from h2) (by simp [hsynf]),
                  hs_win := fun _ => Or.inl rfl,
                  hs_next := fun _ h2 => absurd rfl h2,
                  data_above := fun kv hkv => absurd hkv (List.not_mem_nil kv) }
        · rw [hds] at h
          simp only [Option.some.injEq, Prod.mk.injEq] at h
          obtain ⟨rfl, rfl⟩ := h
          have hmain : HsInv C n0 { c with
              sending_window := insertW seqnum
                ({ rudp_packet := sch.rudp_packet, timeout := sch.timeout,
                   timeout_cb := true, retries := sch.retries + 1 })
                (markTimerFired seqnum c.sending_window) } := by
            refine { syn_not_conn := fun h2 =>
                       absurd (show c.syn_handle = true from h2) (by simp [hsynf]),
                     syn_win := fun h2 =>
                       absurd (show c.syn_handle = true from h2) (by simp [hsynf]),
                     syn_next := fun h2 =>
                       absurd (show c.syn_handle = true from h2) (by simp [hsynf]),
                     hs_win := ?_, hs_next := ?_, data_above := ?_ }
            · intro hc4
              rcases hH.hs_win hc4 with hnil | ⟨e1, hwe, hsyn1, hseq1⟩
              · exact absurd hnil hwne
              · rw [hwe] at hlook
                obtain ⟨hks, hse⟩ := lookupW_singleton _ _ _ _ hlook
                refine Or.inr
                  ⟨(⟨sch.rudp_packet, sch.timeout, true, sch.retries + 1⟩ : ScheduledPacket),
                    ?_, ?_, ?_⟩
                · show insertW seqnum _ (markTimerFired seqnum c.sending_window) = _
                  rw [hwe, hks, markTimerFired_self_singleton, insertW_self_cons]
                · rw [hse]
                  exact hsyn1
                · rw [hse]
                  exact hseq1
            · intro hc4 _
              exact hH.hs_next hc4 hwne
            · intro kv hkv
              rcases mem_insertW _ _ _ _ hkv with rfl | hkv2
              · intro h2
                exact hH.data_above (seqnum, sch) (lookupW_mem _ _ _ hlook) h2
              · obtain ⟨kv0, hkv0, hk1, hpkt, -⟩ := mem_markTimerFired _ _ _ hkv2
                intro h2
                rw [hk1]
                refine hH.data_above kv0 hkv0 ?_
                rw [← hpkt]
                exact h2
          rcases reset_ack_eq { c with
              sending_window := insertW seqnum
                ({ rudp_packet := sch.rudp_packet, timeout := sch.timeout,
                   timeout_cb := true, retries := sch.retries + 1 })
                (markTimerFired seqnum c.sending_window) } with hr | hr <;> rw [hr]
          · exact hmain
          · exact HsInv_transport C n0 _ _ hmain rfl rfl rfl rfl
      · exact Option.noConfusion h
  | tickSend =>
    simp only [step] at h
    split at h
    · next hrun =>
      have hconn := hR.run_conn hrun
      have hsynf : c.syn_handle = false := by
        cases hsy2 : c.syn_handle
        · rfl
        · rw [hH.syn_not_conn hsy2] at hconn
          exact Bool.noConfusion hconn
      rcases hq : c.segment_queue with _ | ⟨⟨mf, msg⟩, qrest⟩
      · exact absurd hq (hR.run_queue hrun)
      · rw [dequeue_eq C c mf msg qrest hq] at h
        simp only [Option.some.injEq, Prod.mk.injEq] at h
        obtain ⟨rfl, rfl⟩ := h
        have hmain : HsInv C n0 { c with
            segment_queue := qrest
            next_sequence_number := c.next_sequence_number + 1
            sending_window := insertW (c.next_sequence_number + 1)
              ({ rudp_packet := mkPacket (c.next_sequence_number + 1) c.dest_addr c.own_addr
                  msg mf c.next_expected_seqnum false false,
                 timeout := C.PACKET_TIMEOUT, timeout_cb := true, retries := 0 })
              c.sending_window } := by
          refine { syn_not_conn := fun h2 =>
                     absurd (show c.syn_handle = true from h2) (by simp [hsynf]),
                   syn_win := fun h2 =>
                     absurd (show c.syn_handle = true from h2) (by simp [hsynf]),
                   syn_next := fun h2 =>
                     absurd (show c.syn_handle = true from h2) (by simp [hsynf]),
                   hs_win := fun h2 =>
                     absurd (show c.connected = false from h2) (by simp [hconn]),
                   hs_next := fun h2 _ =>
                     absurd (show c.connected = false from h2) (by simp [hconn]),
                   data_above := ?_ }
          intro kv hkv
          rcases mem_insertW _ _ _ _ hkv with rfl | hkv2
          · intro _
            have := hR.n0_le
            omega
          · exact hH.data_above kv hkv2
        rcases attempt_disabling_eq C { c with
            segment_queue := qrest
            next_sequence_number := c.next_sequence_number + 1
            sending_window := insertW (c.next_sequence_number + 1)
              ({ rudp_packet := mkPacket (c.next_sequence_number + 1) c.dest_addr c.own_addr
                  msg mf c.next_expected_seqnum false false,
                 timeout := C.PACKET_TIMEOUT, timeout_cb := true, retries := 0 })
              c.sending_window } with hd | hd <;> rw [hd]
        · exact hmain
        · exact HsInv_transport C n0 _ _ hmain rfl rfl rfl rfl
    · exact Option.noConfusion h
  | tickAck =>
    simp only [step] at h
    rw [hR.ack_stopped] at h
    simp at h
  | tickReceive =>
    simp only [step] at h
    split at h
    · next hlr =>
      simp only [Option.some.injEq] at h
      obtain ⟨hw2, hn2, hc2, hl2, hsy2, hq2, ha2⟩ := pop_received_fields c
      have hc2' : c2 = (pop_received_packet c).1 := by rw [h]
      rw [hc2']
      exact HsInv_transport C n0 c _ hH hw2 hn2 hc2 hsy2
    · exact Option.noConfusion h

/-- Both invariants hold along every run in which no received SYN packet is
a bare SYN (`ack = 0`), i.e. along every run of the initiating endpoint. -/
theorem HsInv_run (C : Consts) (n0 : Nat) (c : Conn) (es : List Event) (c2 : Conn)
    (os : List Output) (hW : 0 < C.WINDOW_SIZE) (hR : RInv C n0 c) (hH : HsInv C n0 c)
    (hHs : ∀ p, Event.recvPacket p ∈ es → p.syn = true → p.fin = false → 0 < p.ack)
    (h : run C c es = some (c2, os)) : RInv C n0 c2 ∧ HsInv C n0 c2 := by
  induction es generalizing c os with
  | nil =>
    simp only [run, Option.some.injEq, Prod.mk.injEq] at h
    obtain ⟨rfl, rfl⟩ := h
    exact ⟨hR, hH⟩
  | cons e rest ih =>
    have hrunc : run C c (e :: rest) = match step C c e with
      | none => none
      | some r => (run C r.1 rest).map (fun r2 => (r2.1, r.2 ++ r2.2)) := rfl
    rw [hrunc] at h
    rcases hstep : step C c e with _ | ⟨c1, os1⟩
    · rw [hstep] at h
      exact Option.noConfusion h
    · rw [hstep] at h
      dsimp only at h
      simp only [Option.map_eq_some'] at h
      obtain ⟨⟨c2x, os2⟩, hrun2, heq⟩ := h
      simp only [Prod.mk.injEq] at heq
      obtain ⟨rfl, -⟩ := heq
      have hR1 := (RInv_step C n0 c e c1 os1 hW hR hstep).1
      have hH1 := HsInv_step C n0 c e c1 os1 hR hH
        (fun p hpe => hHs p (by rw [← hpe]; exact List.mem_cons_self _ _)) hstep
      exact ih c1 os2 hR1 hH1 (fun p hm => hHs p (List.mem_cons_of_mem _ hm)) hrun2

/-- C10: on the initiating endpoint — one that never receives a bare SYN
(`ack = 0`), so that its handshake is driven by its own SYN — the SYN
carries the initial `_next_sequence_number` `n0` unincremented (while the
one-shot is pending the counter is untouched); every data packet in the
send window has a strictly greater sequence number (data seqnums come from
the pre-incrementing `_get_next_sequence_number`); while unconnected the
window is empty or holds exactly the SYN keyed by its own seqnum `n0`, so
the oldest window key during the handshake is the SYN seqnum; and a SYNACK
is accepted exactly when `ack = n0 + 1`, retiring exactly the SYN entry,
after which the first scheduled data packet is stamped `n0 + 1`. -/
theorem C10_syn_unincremented_handshake (C : Consts) (n0 : Nat) (own dest : Address)
    (relay : Option Address) (es : List Event) (c2 : Conn) (os : List Output)
    (hW : 0 < C.WINDOW_SIZE)
    (hHs : ∀ p, Event.recvPacket p ∈ es → p.syn = true → p.fin = false → 0 < p.ack)
    (h : run C (initConn n0 own dest relay) es = some (c2, os)) :
    (c2.syn_handle = true → c2.next_sequence_number = n0 ∧
      (synPacketOf c2).sequence_number = n0)
    ∧ (∀ kv ∈ c2.sending_window, kv.2.rudp_packet.syn = false →
        n0 < kv.2.rudp_packet.sequence_number)
    ∧ (c2.connected = false → c2.sending_window = [] ∨
        ∃ e, c2.sending_window = [(n0, e)] ∧ e.rudp_packet.syn = true ∧
          e.rudp_packet.sequence_number = n0)
    ∧ (∀ p c3 os3, c2.connected = false → p.fin = false → p.syn = true → 0 < p.ack →
        step C c2 (Event.recvPacket p) = some (c3, os3) →
        (p.ack ≠ n0 + 1 → c3 = c2 ∧ os3 = [])
        ∧ (p.ack = n0 + 1 → c2.sending_window ≠ [] →
            c3.connected = true ∧ os3 = [Output.cancelTimer n0]
            ∧ (c3.sending_window = []
               ∨ ∃ sch, c3.sending_window = [(n0 + 1, sch)]
                 ∧ sch.rudp_packet.sequence_number = n0 + 1
                 ∧ sch.rudp_packet.syn = false))) := by
  obtain ⟨hR2, hH2⟩ := HsInv_run C n0 _ es c2 os hW (RInv_init C n0 own dest relay)
    (HsInv_init C n0 own dest relay) hHs h
  refine ⟨?_, ?_, hH2.hs_win, ?_⟩
  · intro hsy
    exact ⟨hH2.syn_next hsy, hH2.syn_next hsy⟩
  · intro kv hkv hsynf
    rw [hR2.pkt_seq kv hkv]
    exact hH2.data_above kv hkv hsynf
  · intro p c3 os3 hc' hf hs hack hstep
    simp only [step] at hstep
    rw [(receive_packet_cases C c2 p).2.2.1 hf hs hc'] at hstep
    unfold process_syn_packet at hstep
    rw [if_pos hack] at hstep
    rcases hH2.hs_win hc' with hnil | ⟨e1, hwe, hsyn1, hseq1⟩
    · rw [hnil] at hstep
      dsimp only at hstep
      simp only [Option.some.injEq, Prod.mk.injEq] at hstep
      refine ⟨fun _ => ⟨hstep.1.symm, hstep.2.symm⟩, fun _ hne => absurd hnil hne⟩
    · rw [hwe] at hstep
      dsimp only at hstep
      refine ⟨?_, ?_⟩
      · intro hne
        rw [if_neg hne] at hstep
        simp only [Option.some.injEq, Prod.mk.injEq] at hstep
        exact ⟨hstep.1.symm, hstep.2.symm⟩
      · intro hackeq hne
        rw [if_pos hackeq] at hstep
        simp only [Option.map_eq_some'] at hstep
        obtain ⟨⟨c3x, os4⟩, hen, heq⟩ := hstep
        simp only [Prod.mk.injEq] at heq
        obtain ⟨rfl, hos⟩ := heq
        obtain ⟨hos4, hcases⟩ := attempt_enabling_spec C _ c3x os4 hen
        subst hos4
        refine ⟨(enable_fields C _ _ _ hen).2.1, hos ▸ rfl, ?_⟩
        rcases hcases with rfl | ⟨mf, msg, qrest, hq, hcon, hrunf, hlen, rfl⟩
        · exact Or.inl rfl
        · have hnext : c2.next_sequence_number = n0 := hH2.hs_next hc' hne
          rcases attempt_disabling_eq C _ with hd | hd <;> rw [hd] <;>
            refine Or.inr
              ⟨(⟨mkPacket (n0 + 1) c2.dest_addr c2.own_addr msg mf c2.next_expected_seqnum
                  false false, C.PACKET_TIMEOUT, true, 0⟩ : ScheduledPacket), ?_, rfl, rfl⟩ <;>
            show insertW (c2.next_sequence_number + 1) _ [] = _ <;>
            rw [hnext] <;> rfl

theorem C10_witness :
    run Cx (initConn 5 addrA addrB none) [Event.synTimeout]
      = some ({ connW with syn_handle := false }, [])
    ∧ (({ connW with syn_handle := false } : Conn).connected = false →
        ({ connW with syn_handle := false } : Conn).sending_window = [] ∨
        ∃ e, ({ connW with syn_handle := false } : Conn).sending_window = [(5, e)]
          ∧ e.rudp_packet.syn = true ∧ e.rudp_packet.sequence_number = 5) :=
  ⟨by decide,
   (C10_syn_unincremented_handshake Cx 5 addrA addrB none [Event.synTimeout]
     ({ connW with syn_handle := false }) [] (by decide)
     (fun p hp _ _ => absurd hp (by simp)) (by decide)).2.2.1⟩
